import Mathlib

/-!
# Restore orchestration and TTL flag parsing of the `pscale` command line

A shallow embedding of

* `restore` from `internal/cmd/database/restore.go`,
* `ttlFlag.Set` / `ttlFlag.set` from `internal/cmd/role/create.go`, and
* the inherited roles of the request built by `CreateCmd` in the same file.

Go strings are immutable byte sequences; they are modelled as lists of byte
values.  A Go `error` is a value with a message and, possibly, a wrapped
cause; the nil error is `none`.  The collaborators of `restore` (API client,
credential helper, listener, proxy, loader) live outside these files; their
outcomes are the fields of `World`, and every call `restore` makes on its own
goroutine is recorded, in program order, in the trace of the run.
-/

namespace Pscale

/-! ## Go strings and errors -/

/-- A Go string: a sequence of bytes. -/
abbrev GoString := List Nat

/-- The bytes of an ASCII string literal of the source. -/
def lit (s : String) : GoString := s.toList.map Char.toNat

/-- Go's `<` on strings: byte-wise lexicographic order, a proper prefix
sorting first. -/
def strLt : GoString → GoString → Bool
  | [], [] => false
  | [], _ :: _ => true
  | _ :: _, [] => false
  | a :: as, b :: bs => if a < b then true else if b < a then false else strLt as bs

/-- A non-nil Go error value: `plain` is what `errors.New` and `fmt.Errorf`
without a `%w` verb build (no `Unwrap` method), `wrapped` is an error that
has an `Unwrap` method returning `inner`. -/
inductive GoError where
  | plain (msg : GoString)
  | wrapped (msg : GoString) (inner : GoError)
deriving DecidableEq, Repr

/-- The method `err.Error()`. -/
def GoError.Error : GoError → GoString
  | .plain m => m
  | .wrapped m _ => m

/-- The function `errors.Unwrap(err)`. -/
def GoError.Unwrap : GoError → Option GoError
  | .plain _ => none
  | .wrapped _ e => some e

/-- The function `errors.Is(err, target)` for comparable error values: `err`
or some error of its `Unwrap` chain equals `target`. -/
def errorsIs : GoError → GoError → Bool
  | .plain m, target => decide (GoError.plain m = target)
  | .wrapped m e, target => decide (GoError.wrapped m e = target) || errorsIs e target

/-- The function `errors.New(text)`. -/
def errorsNew (text : GoString) : GoError := .plain text

/-- The function `fmt.Errorf(format, ...)` for a format without a `%w` verb,
applied to the already formatted text: the result has no `Unwrap` method. -/
def fmtErrorf (text : GoString) : GoError := .plain text

/-! ## Data of `restore` -/

/-- The struct `restoreFlags`. -/
structure restoreFlags where
  localAddr : GoString
  remoteAddr : GoString
  dir : GoString
  overwrite : Bool
  schemaOnly : Bool
  dataOnly : Bool
  showDetails : Bool
  startingTable : GoString
  endingTable : GoString
  allowDifferentDestination : Bool
  maxQuerySize : Int
  threads : Int
deriving DecidableEq, Repr

/-- The field of `ps.DatabaseBranch` that `restore` reads. -/
structure DatabaseBranch where
  Ready : Bool
deriving DecidableEq, Repr

/-- The fields of `pw.Password` that `restore` reads. -/
structure Password where
  Hostname : GoString
  Username : GoString
  PlainText : GoString
deriving DecidableEq, Repr

/-- The struct `ps.GetDatabaseBranchRequest`. -/
structure GetDatabaseBranchRequest where
  Organization : GoString
  Database : GoString
  Branch : GoString
deriving DecidableEq, Repr

/-- The struct `passwordutil.Options`; `TTL` in nanoseconds. -/
structure PasswordOptions where
  Organization : GoString
  Database : GoString
  Branch : GoString
  Role : GoString
  Name : GoString
  TTL : Int
deriving DecidableEq, Repr

/-- The struct `proxyutil.Config`, the logger apart. -/
structure ProxyConfig where
  UpstreamAddr : GoString
  Username : GoString
  Password : GoString
deriving DecidableEq, Repr

/-- The fields of `dumper.Config` that `restore` assigns, the printer
apart. -/
structure DumperConfig where
  Threads : Int
  User : GoString
  Password : GoString
  Address : GoString
  Debug : Bool
  IntervalMs : Int
  Outdir : GoString
  OverwriteTables : Bool
  SchemaOnly : Bool
  DataOnly : Bool
  ShowDetails : Bool
  AllowDifferentDestination : Bool
  Database : GoString
  StartingTable : GoString
  EndingTable : GoString
  MaxQuerySize : Int
deriving DecidableEq, Repr

/-- The collaborators of `restore`, none of which is defined in the files
embedded here: the helper `ch`, the helpers of `cmdutil` and `printer`, and
the outcome of every call that leaves the function. -/
structure World where
  /-- The value `ch.Config.Organization`. -/
  Organization : GoString
  /-- The value `ch.Debug()`. -/
  Debug : Bool
  /-- The function `printer.BoldBlue`. -/
  BoldBlue : GoString → GoString
  /-- The function `cmdutil.HandleError` on a non-nil error; its result is an
  `error`, which may be nil. -/
  HandleError : GoError → Option GoError
  /-- The test `cmdutil.ErrCode(err) == ps.ErrNotFound`. -/
  ErrCodeIsNotFound : GoError → Bool
  /-- The constant `cmdutil.AdministratorRole`. -/
  AdministratorRole : GoString
  /-- The function `passwordutil.GenerateName`. -/
  GenerateName : GoString → GoString
  /-- The error of `ch.Client()`, `none` when the client is available. -/
  Client : Option GoError
  /-- The outcome of `client.DatabaseBranches.Get`. -/
  BranchGet : Except GoError DatabaseBranch
  /-- The outcome of `passwordutil.New`. -/
  PasswordNew : Except GoError Password
  /-- The error of `pw.Cleanup`, `none` when the revoke succeeds. -/
  Cleanup : Option GoError
  /-- The outcome of `net.Listen("tcp", addr)`: the text `l.Addr().String()`
  of the bound listener, or an error. -/
  Listen : GoString → Except GoError GoString
  /-- The error with which `proxy.Serve` returns while the process lives,
  `none` when it returns nil or does not return. -/
  Serve : Option GoError
  /-- The error with which `pw.Renew` returns while the process lives,
  `none` when it returns nil or does not return. -/
  Renew : Option GoError
  /-- The error of `dumper.NewLoader(cfg)`, `none` when a loader is built. -/
  NewLoader : DumperConfig → Option GoError
  /-- The error of `loader.Run(ctx)` for the loader built from `cfg`. -/
  LoaderRun : DumperConfig → Option GoError
  /-- The rendered `time.Since(start)` of the final message. -/
  Elapsed : GoString

/-- The calls `restore` makes, with their arguments. -/
inductive Effect where
  /-- The call `ch.Client()`. -/
  | client
  /-- The call `client.DatabaseBranches.Get`. -/
  | branchGet (req : GetDatabaseBranchRequest)
  /-- The call `passwordutil.New`, which issues the credential. -/
  | passwordNew (opts : PasswordOptions)
  /-- The call `pw.Cleanup` under a fresh context with the given timeout in
  nanoseconds. -/
  | cleanup (timeout : Int)
  /-- The call `proxyutil.New`. -/
  | proxyNew (cfg : ProxyConfig)
  /-- The call `proxy.Close()`. -/
  | proxyClose
  /-- The call `net.Listen("tcp", addr)`. -/
  | listen (addr : GoString)
  /-- The call `l.Close()`. -/
  | listenerClose
  /-- The statement `go func() { proxy.Serve(l, ...) }()`. -/
  | goServe
  /-- The statement `go func() { pw.Renew(ctx) }()`. -/
  | goRenew
  /-- The call `dumper.NewLoader(cfg)`. -/
  | newLoader (cfg : DumperConfig)
  /-- The call `loader.Run(ctx)`. -/
  | loaderRun
  /-- The call `ch.Printer.Println` with the texts of its operands. -/
  | println (operands : List GoString)
  /-- The call `ch.Printer.Printf` with the formatted text. -/
  | printf (text : GoString)
  /-- The call `ch.Printer.PrintProgress`. -/
  | printProgress (text : GoString)
  /-- A call of the function returned by `PrintProgress`. -/
  | endProgress
  /-- The call `cancel()` of the context of the run. -/
  | cancel
deriving DecidableEq, Repr

/-- The `return` statements of `restore`, in source order. -/
inductive Exit where
  | missingDir
  | tableRange
  | client
  | branchNotFound
  | branchRead
  | notReady
  | credential
  | listen
  | newLoader
  | loaderRun
  | finished
deriving DecidableEq, Repr

/-- One run of `restore`: the `return` statement taken, the error returned
(`none` is nil), the calls made by the goroutine of `restore` in program
order up to its return (deferred calls included), and the calls made by the
goroutines it started (whose order relative to `trace` is not fixed). -/
structure Run where
  exit : Exit
  err : Option GoError
  trace : List Effect
  background : List Effect

/-! ## `restore` -/

/-- One second, as a `time.Duration` (nanoseconds). -/
def Second : Int := 1000000000

/-- One minute, as a `time.Duration`. -/
def Minute : Int := 60 * Second

/-- The error of the `--dir` check. -/
def missingDirError : GoError :=
  errorsNew (lit "--dir flag is missing, it's needed to restore the database")

/-- The error of the table-range check. -/
def tableRangeError (w : World) (flags : restoreFlags) : GoError :=
  fmtErrorf (lit "provided ending table " ++ w.BoldBlue flags.endingTable
    ++ lit " must come alphabetically after your provided starting table "
    ++ w.BoldBlue flags.startingTable ++ lit " for the restore to continue")

/-- The error returned when the branch read fails with the not-found code. -/
def branchNotFoundError (w : World) (database branch : GoString) : GoError :=
  fmtErrorf (lit "branch " ++ w.BoldBlue branch ++ lit " does not exist in database "
    ++ w.BoldBlue database ++ lit " (organization: " ++ w.BoldBlue w.Organization ++ lit ")")

/-- The error returned for a branch that is not ready. -/
def notReadyError : GoError :=
  errorsNew (lit "database branch is not ready yet, please try again in a few minutes")

/-- The error returned when `loader.Run` fails with `err`. -/
def restoreFailedError (err : GoError) : GoError :=
  fmtErrorf (lit "failed to restore database: " ++ err.Error)

/-- The condition of the table-range check. -/
def tableRangeViolated (flags : restoreFlags) : Bool :=
  decide (flags.endingTable ≠ []) && decide (flags.startingTable ≠ [])
    && strLt flags.endingTable flags.startingTable

/-- The deferred call `cancel()`. -/
def deferCancel : List Effect := [.cancel]

/-- The deferred closure that revokes the credential: `pw.Cleanup` under a
fresh five-second context, its error printed. -/
def deferCleanup (w : World) : List Effect :=
  .cleanup (5 * Second) ::
    (match w.Cleanup with
     | some err => [.println [lit "failed to delete credentials: ", err.Error]]
     | none => [])

/-- The body of a started goroutine that prints the error of its call. -/
def goroutine (outcome : Option GoError) : List Effect :=
  match outcome with
  | some err => [.println [lit "proxy error: ", err.Error]]
  | none => []

/-- The local address `restore` binds. -/
def localAddrOf (flags : restoreFlags) : GoString :=
  if flags.localAddr ≠ [] then flags.localAddr else lit "127.0.0.1:0"

/-- The upstream address `restore` gives the proxy. -/
def remoteAddrOf (flags : restoreFlags) (pw : Password) : GoString :=
  if flags.remoteAddr = [] then pw.Hostname else flags.remoteAddr

/-- The loader configuration `restore` builds for the bound address. -/
def loaderConfig (w : World) (flags : restoreFlags) (database addr : GoString) : DumperConfig :=
  { Threads := flags.threads
    User := lit "nobody"
    Password := lit "nobody"
    Address := addr
    Debug := w.Debug
    IntervalMs := 10 * 1000
    Outdir := flags.dir
    OverwriteTables := flags.overwrite
    SchemaOnly := flags.schemaOnly
    DataOnly := flags.dataOnly
    ShowDetails := flags.showDetails
    AllowDifferentDestination := flags.allowDifferentDestination
    Database := database
    StartingTable := flags.startingTable
    EndingTable := flags.endingTable
    MaxQuerySize := flags.maxQuerySize }

/-- The calls up to and including the branch read. -/
def branchCalls (w : World) (database branch : GoString) : List Effect :=
  [.client, .branchGet ⟨w.Organization, database, branch⟩]

/-- The calls up to and including the credential issue: administrator role,
generated name, a TTL of five minutes. -/
def credentialCalls (w : World) (database branch : GoString) : List Effect :=
  branchCalls w database branch ++
    [.passwordNew ⟨w.Organization, database, branch, w.AdministratorRole,
      w.GenerateName (lit "pscale-cli-restore"), 5 * Minute⟩]

/-- The calls up to and including `net.Listen`. -/
def listenCalls (w : World) (flags : restoreFlags) (database branch : GoString)
    (pw : Password) : List Effect :=
  credentialCalls w database branch ++
    [.proxyNew ⟨remoteAddrOf flags pw, pw.Username, pw.PlainText⟩, .listen (localAddrOf flags)]

/-- The calls up to and including `dumper.NewLoader`, for a listener bound at
`addr`. -/
def loaderCalls (w : World) (flags : restoreFlags) (database branch : GoString)
    (pw : Password) (addr : GoString) : List Effect :=
  listenCalls w flags database branch pw ++
    [.goServe, .goRenew, .newLoader (loaderConfig w flags database addr)]

/-- The calls up to and including `loader.Run`. -/
def runCalls (w : World) (flags : restoreFlags) (database branch : GoString)
    (pw : Password) (addr : GoString) : List Effect :=
  loaderCalls w flags database branch pw addr ++
    [.printf (lit "Starting to restore database " ++ w.BoldBlue database
      ++ lit " from folder " ++ w.BoldBlue flags.dir ++ lit "\n")] ++
    (if flags.showDetails then [.println [lit "Restoring database ..."]]
      else [.printProgress (lit "Restoring database ...\n")]) ++
    [.loaderRun]

/-- A call of the function value `end`: the function returned by
`PrintProgress`, or the empty function when `--show-details` is set. -/
def endCall (flags : restoreFlags) : List Effect :=
  if flags.showDetails then [] else [.endProgress]

/-- The final message of a successful run. -/
def finishedCalls (w : World) : List Effect :=
  [.printf (lit "Restore is finished! (elapsed time: " ++ w.Elapsed ++ lit ")\n")]

/-- The deferred calls in force once the proxy exists, last registered
first: `proxy.Close`, the revoke closure, `cancel`. -/
def defersAfterProxy (w : World) : List Effect :=
  .proxyClose :: (deferCleanup w ++ deferCancel)

/-- The deferred calls in force once the listener is bound. -/
def defersAfterListen (w : World) : List Effect :=
  .listenerClose :: defersAfterProxy w

/-- The deferred calls in force while the loader runs. -/
def defersAfterProgress (w : World) (flags : restoreFlags) : List Effect :=
  endCall flags ++ defersAfterListen w

/-- The calls of the two goroutines `restore` starts. -/
def goroutines (w : World) : List Effect :=
  goroutine w.Serve ++ goroutine w.Renew

/-- The function `restore`, with `args[0]` and `args[1]` passed as `database`
and `branch` (the command requires both arguments).  Every `return` runs the
deferred calls registered so far, last registered first. -/
def restore (w : World) (flags : restoreFlags) (database branch : GoString) : Run :=
  if flags.dir = [] then
    ⟨.missingDir, some missingDirError, deferCancel, []⟩
  else if tableRangeViolated flags then
    ⟨.tableRange, some (tableRangeError w flags), deferCancel, []⟩
  else
    match w.Client with
    | some err => ⟨.client, some err, [.client] ++ deferCancel, []⟩
    | none =>
    match w.BranchGet with
    | .error err =>
      if w.ErrCodeIsNotFound err then
        ⟨.branchNotFound, some (branchNotFoundError w database branch),
          branchCalls w database branch ++ deferCancel, []⟩
      else
        ⟨.branchRead, w.HandleError err, branchCalls w database branch ++ deferCancel, []⟩
    | .ok dbBranch =>
    if !dbBranch.Ready then
      ⟨.notReady, some notReadyError, branchCalls w database branch ++ deferCancel, []⟩
    else
    match w.PasswordNew with
    | .error err =>
      ⟨.credential, w.HandleError err, credentialCalls w database branch ++ deferCancel, []⟩
    | .ok pw =>
    match w.Listen (localAddrOf flags) with
    | .error err =>
      ⟨.listen, w.HandleError err,
        listenCalls w flags database branch pw ++ defersAfterProxy w, []⟩
    | .ok addr =>
    match w.NewLoader (loaderConfig w flags database addr) with
    | some err =>
      ⟨.newLoader, some err,
        loaderCalls w flags database branch pw addr ++ defersAfterListen w, goroutines w⟩
    | none =>
    match w.LoaderRun (loaderConfig w flags database addr) with
    | some err =>
      ⟨.loaderRun, some (restoreFailedError err),
        runCalls w flags database branch pw addr ++ defersAfterProgress w flags, goroutines w⟩
    | none =>
      ⟨.finished, none,
        runCalls w flags database branch pw addr ++ endCall flags ++ finishedCalls w
          ++ defersAfterProgress w flags, goroutines w⟩

/-! ## `ttlFlag` -/

/-- The value of an `int64` computation: the mathematical result reduced to
the range `-2^63 .. 2^63 - 1` (two's complement wrap-around). -/
def wrap64 (x : Int) : Int := (x + 2 ^ 63) % 2 ^ 64 - 2 ^ 63

/-- The conversion `uint64(x)` of an `int64`. -/
def toUint64 (x : Int) : Int := x % 2 ^ 64

/-- The constant `minDuration` of package `time`. -/
def minDuration : Int := -(2 ^ 63)

/-- The constant `maxDuration` of package `time`. -/
def maxDuration : Int := 2 ^ 63 - 1

/-- The function `lessThanHalf` of package `time`:
`uint64(x)+uint64(x) < uint64(y)`. -/
def lessThanHalf (x y : Int) : Bool :=
  decide ((toUint64 x + toUint64 x) % 2 ^ 64 < toUint64 y)

/-- The method `Duration.Round` of package `time`; `%` of Go truncates
toward zero. -/
def Round (d m : Int) : Int :=
  if m ≤ 0 then d
  else
    let r := Int.tmod d m
    if d < 0 then
      let r := wrap64 (-r)
      if lessThanHalf r m then wrap64 (d + r)
      else
        let d1 := wrap64 (wrap64 (d - m) + r)
        if d1 < d then d1 else minDuration
    else
      if lessThanHalf r m then wrap64 (d - r)
      else
        let d1 := wrap64 (wrap64 (d + m) - r)
        if d1 > d then d1 else maxDuration

/-- The value of a run of decimal digit bytes, `none` when a byte is not a
digit. -/
def digitsValue : GoString → Nat → Option Nat
  | [], acc => some acc
  | c :: cs, acc => if 48 ≤ c ∧ c ≤ 57 then digitsValue cs (acc * 10 + (c - 48)) else none

/-- The function `strconv.Atoi` where `int` has 64 bits: an optional sign,
then one or more decimal digits, the value within the range of `int`;
`none` is a syntax or range error. -/
def Atoi (s : GoString) : Option Int :=
  let neg := decide (s.head? = some 45)
  let body := if s.head? = some 45 ∨ s.head? = some 43 then s.tail else s
  if body = [] then none
  else
    match digitsValue body 0 with
    | none => none
    | some n =>
      if neg then (if n ≤ 2 ^ 63 then some (-(n : Int)) else none)
      else (if n < 2 ^ 63 then some (n : Int) else none)

/-- The type `ttlFlag`; `Value` is a `time.Duration` in nanoseconds. -/
structure ttlFlag where
  Value : Int
deriving DecidableEq, Repr

/-- The method `ttlFlag.set`: the error returned and the flag afterwards. -/
def ttlFlag.set (f : ttlFlag) (d : Int) : Option GoError × ttlFlag :=
  if d < 0 then
    (some (errorsNew (lit "TTL cannot be negative")), f)
  else if Round d Second ≠ d then
    (some (errorsNew (lit "TTL must be defined in increments of 1 second")), f)
  else
    (none, { f with Value := d })

/-- The method `ttlFlag.Set`.  The function `cmdutil.ParseDuration` and the
`%q` rendering of the value are parameters. -/
def ttlFlag.Set (ParseDuration : GoString → Except GoError Int) (quote : GoString → GoString)
    (f : ttlFlag) (value : GoString) : Option GoError × ttlFlag :=
  if value = [] then
    f.set (wrap64 (0 * Second))
  else
    match ParseDuration value with
    | .ok d => f.set d
    | .error _ =>
      match Atoi value with
      | none => (some (fmtErrorf (lit "cannot parse " ++ quote value ++ lit " as TTL in seconds")), f)
      | some i => f.set (wrap64 (i * Second))

/-! ## Observations on runs -/

/-- Whether a call is the credential issue `passwordutil.New`. -/
def isPasswordNew : Effect → Bool
  | .passwordNew _ => true
  | _ => false

/-- Whether the run issued a credential: `passwordutil.New` was called and
returned no error. -/
def credentialIssued (w : World) (r : Run) : Bool :=
  r.trace.any isPasswordNew &&
    (match w.PasswordNew with
     | .ok _ => true
     | .error _ => false)

/-- Whether a call binds the local listener. -/
def isListen : Effect → Bool
  | .listen _ => true
  | _ => false

/-- Whether a call starts the `proxy.Serve` or the `pw.Renew` goroutine. -/
def isTaskStart : Effect → Bool
  | .goServe => true
  | .goRenew => true
  | _ => false

/-- Whether a call constructs or runs the loader. -/
def isLoaderCall : Effect → Bool
  | .newLoader _ => true
  | .loaderRun => true
  | _ => false

/-- Whether a call goes to the remote API: the branch read, the credential
issue or the credential revoke. -/
def isRemoteCall : Effect → Bool
  | .branchGet _ => true
  | .passwordNew _ => true
  | .cleanup _ => true
  | _ => false

/-- Whether a call builds the proxy. -/
def isProxyNew : Effect → Bool
  | .proxyNew _ => true
  | _ => false

/-- Whether a call constructs the loader. -/
def isNewLoader : Effect → Bool
  | .newLoader _ => true
  | _ => false

/-- Whether a validation step of `restore` or the credential issue fails:
`--dir` missing, bad table range, client unavailable, branch read failed
(not found or otherwise), branch not ready, credential not issued. -/
def failsBeforeRelay (w : World) (flags : restoreFlags) : Prop :=
  flags.dir = [] ∨ tableRangeViolated flags = true ∨ (∃ err, w.Client = some err) ∨
    (∃ err, w.BranchGet = .error err) ∨ (∃ b, w.BranchGet = .ok b ∧ b.Ready = false) ∨
    (∃ err, w.PasswordNew = .error err)

/-! ## `CreateCmd` of package `role`: the inherited roles -/

/-- The byte of the separator "," of the `--inherited-roles` flag. -/
def comma : Nat := 44

/-- The function `strings.Count(s, sep)` for a one-byte separator. -/
def Count (s : GoString) (sep : Nat) : Nat := s.count sep

/-- The function `strings.Index(s, sep)` for a one-byte separator: the
position of its first occurrence, `none` for -1. -/
def Index : GoString → Nat → Option Nat
  | [], _ => none
  | c :: rest, sep => if c = sep then some 0 else (Index rest sep).map (· + 1)

/-- The loop of `genSplit` in package `strings`, for a one-byte separator and
`k` pieces still to cut: cut at the first separator, or stop when there is
none. -/
def genSplitLoop : Nat → GoString → Nat → List GoString
  | 0, s, _ => [s]
  | k + 1, s, sep =>
    match Index s sep with
    | none => [s]
    | some m => s.take m :: genSplitLoop k (s.drop (m + 1)) sep

/-- The function `strings.Split(s, sep)` for a one-byte separator: `genSplit`
with `n = Count(s, sep) + 1` pieces. -/
def Split (s : GoString) (sep : Nat) : List GoString :=
  genSplitLoop (Count s sep) s sep

/-- The UTF-8 encodings of the runes for which `unicode.IsSpace` holds: tab,
line feed, vertical tab, form feed, carriage return, space, U+0085, U+00A0,
U+1680, U+2000 to U+200A, U+2028, U+2029, U+202F, U+205F, U+3000. -/
def spaceEncodings : List GoString :=
  [[9], [10], [11], [12], [13], [32], [0xC2, 0x85], [0xC2, 0xA0], [0xE1, 0x9A, 0x80],
   [0xE2, 0x80, 0x80], [0xE2, 0x80, 0x81], [0xE2, 0x80, 0x82], [0xE2, 0x80, 0x83],
   [0xE2, 0x80, 0x84], [0xE2, 0x80, 0x85], [0xE2, 0x80, 0x86], [0xE2, 0x80, 0x87],
   [0xE2, 0x80, 0x88], [0xE2, 0x80, 0x89], [0xE2, 0x80, 0x8A], [0xE2, 0x80, 0xA8],
   [0xE2, 0x80, 0xA9], [0xE2, 0x80, 0xAF], [0xE2, 0x81, 0x9F], [0xE3, 0x80, 0x80]]

/-- The white space rune a string starts with, as its encoding: the rune
`utf8.DecodeRuneInString` finds at the start of the string satisfies
`unicode.IsSpace` exactly when the string starts with one of the encodings
(an invalid or truncated sequence decodes to `RuneError`, no white space). -/
def leadingSpace (s : GoString) : Option GoString :=
  spaceEncodings.find? (fun e => e.isPrefixOf s)

/-- The white space rune a string ends with, as its encoding: the rune
`utf8.DecodeLastRuneInString` finds satisfies `unicode.IsSpace` exactly when
the string ends with one of the encodings. -/
def trailingSpace (s : GoString) : Option GoString :=
  spaceEncodings.find? (fun e => e.isSuffixOf s)

/-- At most `n` times, remove the white space rune at the start. -/
def trimLeftLoop : Nat → GoString → GoString
  | 0, s => s
  | n + 1, s =>
    match leadingSpace s with
    | none => s
    | some e => trimLeftLoop n (s.drop e.length)

/-- At most `n` times, remove the white space rune at the end. -/
def trimRightLoop : Nat → GoString → GoString
  | 0, s => s
  | n + 1, s =>
    match trailingSpace s with
    | none => s
    | some e => trimRightLoop n (s.take (s.length - e.length))

/-- The function `strings.TrimLeftFunc(s, unicode.IsSpace)`: the string from
its first rune that is no white space; a string has at most as many runes as
bytes. -/
def TrimLeftSpace (s : GoString) : GoString := trimLeftLoop s.length s

/-- The function `strings.TrimRightFunc(s, unicode.IsSpace)`: the string up
to its last rune that is no white space. -/
def TrimRightSpace (s : GoString) : GoString := trimRightLoop s.length s

/-- The function `strings.TrimSpace`: all leading and trailing white space
removed, as defined by Unicode. -/
def TrimSpace (s : GoString) : GoString := TrimRightSpace (TrimLeftSpace s)

/-- A string of white space only: a sequence of runes for which
`unicode.IsSpace` holds, each in its UTF-8 encoding. -/
def whiteSpaceOnly (s : GoString) : Prop :=
  ∃ runes : List GoString, (∀ e ∈ runes, e ∈ spaceEncodings) ∧ runes.flatten = s

/-- The string `role` is `piece` with its white space trimmed, in the words
of the claim and without reference to `TrimSpace`: `piece` is white space,
then `role`, then white space, and `role` neither starts nor ends with a
white space rune. -/
def isTrimOf (role piece : GoString) : Prop :=
  ∃ lead trail, whiteSpaceOnly lead ∧ whiteSpaceOnly trail ∧
    piece = lead ++ role ++ trail ∧ leadingSpace role = none ∧ trailingSpace role = none

/-- The function `strings.Join(pieces, sep)` for a one-byte separator. -/
def Join : List GoString → Nat → GoString
  | [], _ => []
  | [p], _ => p
  | p :: q :: rest, sep => p ++ sep :: Join (q :: rest) sep

/-- The struct `ps.CreatePostgresRoleRequest`. -/
structure CreatePostgresRoleRequest where
  Organization : GoString
  Database : GoString
  Branch : GoString
  Name : GoString
  TTL : Int
  InheritedRoles : List GoString
deriving DecidableEq, Repr

/-- The slice `inheritedRoles` that `CreateCmd` builds from the value of
`--inherited-roles`; the nil slice is the empty list. -/
def inheritedRolesOf (flag : GoString) : List GoString :=
  if flag ≠ [] then (Split flag comma).map TrimSpace else []

/-- The request `CreateCmd` sends, for the value `ttl` of
`int(flags.ttl.Value.Seconds())`. -/
def createRequest (organization database branch name : GoString) (ttl : Int)
    (flag : GoString) : CreatePostgresRoleRequest :=
  { Organization := organization
    Database := database
    Branch := branch
    Name := name
    TTL := ttl
    InheritedRoles := inheritedRolesOf flag }

/-! ## Example worlds and flags -/

/-- A world in which every collaborator succeeds; an ephemeral port request
is bound at port 54321. -/
def exampleWorld : World :=
  { Organization := lit "acme"
    Debug := false
    BoldBlue := fun s => s
    HandleError := fun err => some err
    ErrCodeIsNotFound := fun err => decide (err.Error = lit "not_found")
    AdministratorRole := lit "admin"
    GenerateName := fun s => s ++ lit "-1"
    Client := none
    BranchGet := .ok ⟨true⟩
    PasswordNew := .ok ⟨lit "db.example.com:3306", lit "user", lit "secret"⟩
    Cleanup := none
    Listen := fun a => if a = lit "127.0.0.1:0" then .ok (lit "127.0.0.1:54321") else .ok a
    Serve := none
    Renew := none
    NewLoader := fun _ => none
    LoaderRun := fun _ => none
    Elapsed := lit "1s" }

/-- The flags of `restore-dump --dir dump`, all others at their defaults. -/
def exampleFlags : restoreFlags :=
  { localAddr := []
    remoteAddr := []
    dir := lit "dump"
    overwrite := false
    schemaOnly := false
    dataOnly := false
    showDetails := false
    startingTable := []
    endingTable := []
    allowDifferentDestination := false
    maxQuerySize := 16777216
    threads := 1 }

/-- Flags whose ending table sorts before the starting table. -/
def reversedRangeFlags : restoreFlags :=
  { exampleFlags with startingTable := lit "users", endingTable := lit "accounts" }

/-- A world whose branch exists but is not ready. -/
def notReadyWorld : World :=
  { exampleWorld with BranchGet := .ok ⟨false⟩ }

/-- A world whose branch read fails with the not-found code. -/
def notFoundWorld : World :=
  { exampleWorld with BranchGet := .error (.plain (lit "not_found")) }

/-- A world in which no credential is issued. -/
def noCredentialWorld : World :=
  { exampleWorld with PasswordNew := .error (.plain (lit "unauthorized")) }

/-- A loader error built by `errors.New`. -/
def loaderCause : GoError := .plain (lit "load: disk full")

/-- A loader error with the same text that wraps another error. -/
def loaderCauseWrapping : GoError := .wrapped (lit "load: disk full") (.plain (lit "disk full"))

/-- A world whose loader run fails with `loaderCause`. -/
def loaderFailWorld : World :=
  { exampleWorld with LoaderRun := fun _ => some loaderCause }

/-- A world whose loader run fails with `loaderCauseWrapping`. -/
def loaderFailWrappingWorld : World :=
  { exampleWorld with LoaderRun := fun _ => some loaderCauseWrapping }

/-- A world in which `pw.Renew` returns an error and all else succeeds. -/
def renewFailWorld : World :=
  { exampleWorld with Renew := some (.plain (lit "renew failed twice")) }

/-- A duration parser that rejects every string, as `time.ParseDuration`
rejects a bare integer other than "0". -/
def rejectingParser : GoString → Except GoError Int :=
  fun _ => .error (.plain (lit "time: missing unit in duration"))

/-- A duration parser that accepts the largest duration written in
nanoseconds, as `time.ParseDuration` does, and nothing else. -/
def maxAcceptingParser : GoString → Except GoError Int :=
  fun v => if v = lit "9223372036854775807ns" then .ok maxDuration
    else .error (.plain (lit "time: invalid duration"))

/-- The flag after a sequence of `Set` calls, errors ignored as the flag
keeps its value on an error. -/
def setAll (ParseDuration : GoString → Except GoError Int) (quote : GoString → GoString)
    (f : ttlFlag) (values : List GoString) : ttlFlag :=
  values.foldl (fun g v => (ttlFlag.Set ParseDuration quote g v).2) f

/-! ## Shared lemmas -/

theorem strLt_irrefl (a : GoString) : strLt a a = false := by
  induction a with
  | nil => rfl
  | cons x xs ih => simp [strLt, ih]

theorem strLt_iff_lex (a b : GoString) : strLt a b = true ↔ List.Lex (· < ·) a b := by
  induction a generalizing b with
  | nil =>
    cases b with
    | nil => simp [strLt]
    | cons y ys => simp [strLt, List.Lex.nil]
  | cons x xs ih =>
    cases b with
    | nil => simp [strLt]
    | cons y ys =>
      simp only [strLt]
      constructor
      · intro h
        by_cases hxy : x < y
        · exact List.Lex.rel hxy
        · by_cases hyx : y < x
          · simp [hxy, hyx] at h
          · have hEq : x = y := by omega
            subst hEq
            simp [hxy] at h
            exact List.Lex.cons ((ih ys).1 h)
      · intro h
        cases h with
        | rel hxy => simp [hxy]
        | cons h1 =>
          have := (ih ys).2 h1
          simp [this]

theorem tableRangeViolated_iff (flags : restoreFlags) :
    tableRangeViolated flags = true ↔
      flags.startingTable ≠ [] ∧ flags.endingTable ≠ [] ∧
        strLt flags.endingTable flags.startingTable = true := by
  simp [tableRangeViolated]
  tauto

/-- Case analysis on a run of `restore`: a property of runs holds of
`restore` as soon as it holds of the run of each `return` statement under
the conditions that lead there. -/
theorem restore_cases (w : World) (flags : restoreFlags) (database branch : GoString)
    (P : Run → Prop)
    (hMissingDir : flags.dir = [] →
      P ⟨.missingDir, some missingDirError, deferCancel, []⟩)
    (hTableRange : flags.dir ≠ [] → tableRangeViolated flags = true →
      P ⟨.tableRange, some (tableRangeError w flags), deferCancel, []⟩)
    (hClient : ∀ err, flags.dir ≠ [] → tableRangeViolated flags = false →
      w.Client = some err →
      P ⟨.client, some err, [.client] ++ deferCancel, []⟩)
    (hNotFound : ∀ err, flags.dir ≠ [] → tableRangeViolated flags = false →
      w.Client = none → w.BranchGet = .error err → w.ErrCodeIsNotFound err = true →
      P ⟨.branchNotFound, some (branchNotFoundError w database branch),
        branchCalls w database branch ++ deferCancel, []⟩)
    (hBranchRead : ∀ err, flags.dir ≠ [] → tableRangeViolated flags = false →
      w.Client = none → w.BranchGet = .error err → w.ErrCodeIsNotFound err = false →
      P ⟨.branchRead, w.HandleError err, branchCalls w database branch ++ deferCancel, []⟩)
    (hNotReady : ∀ dbBranch, flags.dir ≠ [] → tableRangeViolated flags = false →
      w.Client = none → w.BranchGet = .ok dbBranch → dbBranch.Ready = false →
      P ⟨.notReady, some notReadyError, branchCalls w database branch ++ deferCancel, []⟩)
    (hCredential : ∀ dbBranch err, flags.dir ≠ [] → tableRangeViolated flags = false →
      w.Client = none → w.BranchGet = .ok dbBranch → dbBranch.Ready = true →
      w.PasswordNew = .error err →
      P ⟨.credential, w.HandleError err, credentialCalls w database branch ++ deferCancel, []⟩)
    (hListen : ∀ dbBranch pw err, flags.dir ≠ [] → tableRangeViolated flags = false →
      w.Client = none → w.BranchGet = .ok dbBranch → dbBranch.Ready = true →
      w.PasswordNew = .ok pw → w.Listen (localAddrOf flags) = .error err →
      P ⟨.listen, w.HandleError err,
        listenCalls w flags database branch pw ++ defersAfterProxy w, []⟩)
    (hNewLoader : ∀ dbBranch pw addr err, flags.dir ≠ [] → tableRangeViolated flags = false →
      w.Client = none → w.BranchGet = .ok dbBranch → dbBranch.Ready = true →
      w.PasswordNew = .ok pw → w.Listen (localAddrOf flags) = .ok addr →
      w.NewLoader (loaderConfig w flags database addr) = some err →
      P ⟨.newLoader, some err,
        loaderCalls w flags database branch pw addr ++ defersAfterListen w, goroutines w⟩)
    (hLoaderRun : ∀ dbBranch pw addr err, flags.dir ≠ [] → tableRangeViolated flags = false →
      w.Client = none → w.BranchGet = .ok dbBranch → dbBranch.Ready = true →
      w.PasswordNew = .ok pw → w.Listen (localAddrOf flags) = .ok addr →
      w.NewLoader (loaderConfig w flags database addr) = none →
      w.LoaderRun (loaderConfig w flags database addr) = some err →
      P ⟨.loaderRun, some (restoreFailedError err),
        runCalls w flags database branch pw addr ++ defersAfterProgress w flags, goroutines w⟩)
    (hFinished : ∀ dbBranch pw addr, flags.dir ≠ [] → tableRangeViolated flags = false →
      w.Client = none → w.BranchGet = .ok dbBranch → dbBranch.Ready = true →
      w.PasswordNew = .ok pw → w.Listen (localAddrOf flags) = .ok addr →
      w.NewLoader (loaderConfig w flags database addr) = none →
      w.LoaderRun (loaderConfig w flags database addr) = none →
      P ⟨.finished, none,
        runCalls w flags database branch pw addr ++ endCall flags ++ finishedCalls w
          ++ defersAfterProgress w flags, goroutines w⟩) :
    P (restore w flags database branch) := by
  unfold restore
  by_cases hdir : flags.dir = []
  · rw [if_pos hdir]; exact hMissingDir hdir
  rw [if_neg hdir]
  cases hv : tableRangeViolated flags with
  | true => rw [if_pos rfl]; exact hTableRange hdir hv
  | false =>
  rw [if_neg (by simp)]
  cases hC : w.Client with
  | some err => exact hClient err hdir hv hC
  | none =>
  cases hB : w.BranchGet with
  | error err =>
    cases hN : w.ErrCodeIsNotFound err with
    | true =>
      simp only [hN, if_true]
      exact hNotFound err hdir hv hC hB hN
    | false =>
      simp only [hN, Bool.false_eq_true, if_false]
      exact hBranchRead err hdir hv hC hB hN
  | ok dbBranch =>
  cases hR : dbBranch.Ready with
  | false =>
    simp only [hR, Bool.not_false, if_true]
    exact hNotReady dbBranch hdir hv hC hB hR
  | true =>
  simp only [hR, Bool.not_true, Bool.false_eq_true, if_false]
  cases hP : w.PasswordNew with
  | error err => exact hCredential dbBranch err hdir hv hC hB hR hP
  | ok pw =>
  cases hL : w.Listen (localAddrOf flags) with
  | error err => exact hListen dbBranch pw err hdir hv hC hB hR hP hL
  | ok addr =>
  cases hNL : w.NewLoader (loaderConfig w flags database addr) with
  | some err =>
    simp only [hNL]
    exact hNewLoader dbBranch pw addr err hdir hv hC hB hR hP hL hNL
  | none =>
  cases hLR : w.LoaderRun (loaderConfig w flags database addr) with
  | some err =>
    simp only [hNL, hLR]
    exact hLoaderRun dbBranch pw addr err hdir hv hC hB hR hP hL hNL hLR
  | none =>
    simp only [hNL, hLR]
    exact hFinished dbBranch pw addr hdir hv hC hB hR hP hL hNL hLR

theorem errorsIs_restoreFailedError (err : GoError) :
    errorsIs (restoreFailedError err) err = false := by
  cases err with
  | plain m =>
    simp only [restoreFailedError, fmtErrorf, GoError.Error, errorsIs, decide_eq_false_iff_not]
    intro h
    have hlen := congrArg List.length (GoError.plain.inj h)
    rw [List.length_append] at hlen
    have hpos : 0 < (lit "failed to restore database: ").length := by decide
    omega
  | wrapped m e => simp [restoreFailedError, fmtErrorf, errorsIs]

theorem restore_err_exit_ignore_cleanup (w : World) (c1 c2 : Option GoError)
    (flags : restoreFlags) (database branch : GoString) :
    (restore { w with Cleanup := c1 } flags database branch).err =
      (restore { w with Cleanup := c2 } flags database branch).err ∧
    (restore { w with Cleanup := c1 } flags database branch).exit =
      (restore { w with Cleanup := c2 } flags database branch).exit ∧
    (restore { w with Cleanup := c1 } flags database branch).background =
      (restore { w with Cleanup := c2 } flags database branch).background := by
  apply restore_cases { w with Cleanup := c1 } flags database branch
    (fun r => r.err = (restore { w with Cleanup := c2 } flags database branch).err ∧
      r.exit = (restore { w with Cleanup := c2 } flags database branch).exit ∧
      r.background = (restore { w with Cleanup := c2 } flags database branch).background)
  all_goals
    intros
    simp_all [restore, loaderConfig, tableRangeError, branchNotFoundError, goroutines]

theorem localAddrOf_eq (flags : restoreFlags) :
    localAddrOf flags = (if flags.localAddr ≠ [] then flags.localAddr else lit "127.0.0.1:0") :=
  rfl

theorem remoteAddrOf_eq (flags : restoreFlags) (pw : Password) :
    remoteAddrOf flags pw = (if flags.remoteAddr ≠ [] then flags.remoteAddr else pw.Hostname) := by
  unfold remoteAddrOf
  by_cases h : flags.remoteAddr = [] <;> simp [h]

theorem wrap64_of_range (x : Int) (hlo : minDuration ≤ x) (hhi : x ≤ maxDuration) :
    wrap64 x = x := by
  unfold minDuration maxDuration at *
  unfold wrap64
  omega

theorem Round_Second_eq_iff (d : Int) (h0 : 0 ≤ d) (h1 : d ≤ maxDuration) :
    Round d Second = d ↔ d % Second = 0 ∨ d = maxDuration := by
  have ht : Int.tmod d 1000000000 = d % 1000000000 := Int.tmod_eq_emod h0 (by norm_num)
  unfold maxDuration at *
  unfold Round Second lessThanHalf toUint64 wrap64 maxDuration
  simp only [ht, decide_eq_true_eq]
  split_ifs <;> omega

/-- What `ttlFlag.set` does on every `int64` duration: an error and no change
for a negative duration and for a duration that is neither a whole number of
seconds nor the largest duration; the duration stored otherwise. -/
theorem ttlFlag_set_spec (f : ttlFlag) (d : Int) (hhi : d ≤ maxDuration) :
    ttlFlag.set f d =
      if d < 0 then (some (errorsNew (lit "TTL cannot be negative")), f)
      else if d % Second ≠ 0 ∧ d ≠ maxDuration then
        (some (errorsNew (lit "TTL must be defined in increments of 1 second")), f)
      else (none, { f with Value := d }) := by
  unfold ttlFlag.set
  by_cases hneg : d < 0
  · simp [hneg]
  · have h0 : 0 ≤ d := by omega
    have hR := Round_Second_eq_iff d h0 hhi
    by_cases hr : Round d Second = d
    · have := hR.1 hr
      simp only [hneg, if_false, hr, ne_eq, not_true_eq_false]
      rw [if_neg]
      tauto
    · have : ¬ (d % Second = 0 ∨ d = maxDuration) := fun h => hr (hR.2 h)
      simp only [hneg, if_false, hr, ne_eq, not_false_eq_true, if_true]
      rw [if_pos]
      tauto

/-- A bare integer of at most 9223372036 seconds that the duration parser
rejects is stored as that many seconds. -/
theorem ttlFlag_Set_bare_integer_in_range (ParseDuration : GoString → Except GoError Int)
    (quote : GoString → GoString) (f : ttlFlag) (value : GoString) (n : Nat) (err : GoError)
    (hreject : ParseDuration value = .error err) (hint : Atoi value = some (n : Int))
    (hn : n ≤ 9223372036) :
    ttlFlag.Set ParseDuration quote f value = (none, { f with Value := (n : Int) * Second }) := by
  have hne : value ≠ [] := by
    intro h
    rw [h] at hint
    simp [Atoi] at hint
  have hhi : (n : Int) * Second ≤ maxDuration := by
    unfold Second maxDuration
    omega
  have hlo : minDuration ≤ (n : Int) * Second := by
    unfold Second minDuration
    omega
  unfold ttlFlag.Set
  simp only [hne, if_false, hreject, hint]
  rw [wrap64_of_range _ hlo hhi, ttlFlag_set_spec f _ hhi]
  have h0 : ¬ ((n : Int) * Second < 0) := by
    unfold Second
    omega
  have hm : (n : Int) * Second % Second = 0 := Int.mul_emod_left _ _
  simp [h0, hm]

theorem wrap64_le_maxDuration (x : Int) : wrap64 x ≤ maxDuration := by
  unfold wrap64 maxDuration
  omega

theorem wrap64_seconds_ne_maxDuration (i : Int) : wrap64 (i * Second) ≠ maxDuration := by
  unfold wrap64 maxDuration Second
  omega

/-- The invariant of the flag: a non-negative whole number of seconds. -/
theorem ttlFlag_set_invariant (f : ttlFlag) (d : Int) (hlt : d < maxDuration)
    (hf : 0 ≤ f.Value ∧ f.Value % Second = 0) :
    0 ≤ (ttlFlag.set f d).2.Value ∧ (ttlFlag.set f d).2.Value % Second = 0 := by
  rw [ttlFlag_set_spec f d (le_of_lt hlt)]
  by_cases hneg : d < 0
  · simpa [hneg] using hf
  · by_cases hm : d % Second = 0
    · rw [if_neg hneg, if_neg (by simp [hm])]
      exact ⟨by simpa using hneg, hm⟩
    · have hmax : d ≠ maxDuration := ne_of_lt hlt
      simpa [hneg, hm, hmax] using hf

/-- Whenever the duration parser never yields the largest duration, `Set`
keeps the flag a non-negative whole number of seconds. -/
theorem ttlFlag_Set_invariant (ParseDuration : GoString → Except GoError Int)
    (quote : GoString → GoString) (f : ttlFlag) (value : GoString)
    (hparser : ∀ v d, ParseDuration v = .ok d → d < maxDuration)
    (hf : 0 ≤ f.Value ∧ f.Value % Second = 0) :
    0 ≤ (ttlFlag.Set ParseDuration quote f value).2.Value ∧
      (ttlFlag.Set ParseDuration quote f value).2.Value % Second = 0 := by
  unfold ttlFlag.Set
  by_cases hv : value = []
  · simp only [hv, if_true]
    exact ttlFlag_set_invariant f _
      (lt_of_le_of_ne (wrap64_le_maxDuration _) (wrap64_seconds_ne_maxDuration 0)) hf
  · simp only [hv, if_false]
    cases hp : ParseDuration value with
    | ok d => exact ttlFlag_set_invariant f d (hparser value d hp) hf
    | error e =>
      cases ha : Atoi value with
      | none => exact hf
      | some i =>
        exact ttlFlag_set_invariant f _
          (lt_of_le_of_ne (wrap64_le_maxDuration _) (wrap64_seconds_ne_maxDuration i)) hf

theorem setAll_invariant (ParseDuration : GoString → Except GoError Int)
    (quote : GoString → GoString) (values : List GoString) (f : ttlFlag)
    (hparser : ∀ v d, ParseDuration v = .ok d → d < maxDuration)
    (hf : 0 ≤ f.Value ∧ f.Value % Second = 0) :
    0 ≤ (setAll ParseDuration quote f values).Value ∧
      (setAll ParseDuration quote f values).Value % Second = 0 := by
  induction values generalizing f with
  | nil => exact hf
  | cons v vs ih =>
    exact ih _ (ttlFlag_Set_invariant ParseDuration quote f v hparser hf)

theorem Index_eq_none (s : GoString) (sep : Nat) (h : Index s sep = none) : Count s sep = 0 := by
  induction s with
  | nil => rfl
  | cons c rest ih =>
    unfold Index at h
    by_cases hc : c = sep
    · simp [hc] at h
    · simp only [hc, if_false, Option.map_eq_none'] at h
      have := ih h
      unfold Count at *
      rw [List.count_cons]
      simp [this, hc]

theorem Index_eq_some (s : GoString) (sep m : Nat) (h : Index s sep = some m) :
    s = s.take m ++ sep :: s.drop (m + 1) ∧ sep ∉ s.take m ∧
      Count s sep = Count (s.drop (m + 1)) sep + 1 := by
  induction s generalizing m with
  | nil => simp [Index] at h
  | cons c rest ih =>
    unfold Index at h
    by_cases hc : c = sep
    · simp only [hc, if_true, Option.some.injEq] at h
      subst h
      subst hc
      simp [Count]
    · simp only [hc, if_false, Option.map_eq_some'] at h
      obtain ⟨m', hm', rfl⟩ := h
      obtain ⟨h1, h2, h3⟩ := ih m' hm'
      refine ⟨?_, ?_, ?_⟩
      · simp only [List.take_succ_cons, List.drop_succ_cons, List.cons_append]
        rw [← h1]
      · simp only [List.take_succ_cons, List.mem_cons, not_or]
        exact ⟨fun h => hc h.symm, h2⟩
      · unfold Count at *
        rw [List.count_cons, h3]
        simp [hc]

theorem genSplitLoop_spec (k : Nat) (s : GoString) (sep : Nat) (h : Count s sep = k) :
    (genSplitLoop k s sep).length = k + 1 ∧ Join (genSplitLoop k s sep) sep = s ∧
      ∀ piece ∈ genSplitLoop k s sep, sep ∉ piece := by
  induction k generalizing s with
  | zero =>
    refine ⟨rfl, rfl, ?_⟩
    intro piece hp
    simp only [genSplitLoop, List.mem_singleton] at hp
    subst hp
    unfold Count at h
    exact List.count_eq_zero.1 h
  | succ k ih =>
    unfold genSplitLoop
    cases hI : Index s sep with
    | none =>
      have := Index_eq_none s sep hI
      omega
    | some m =>
      obtain ⟨h1, h2, h3⟩ := Index_eq_some s sep m hI
      have hk : Count (s.drop (m + 1)) sep = k := by omega
      obtain ⟨i1, i2, i3⟩ := ih (s.drop (m + 1)) hk
      dsimp only
      refine ⟨by simp [i1], ?_, ?_⟩
      · cases hrest : genSplitLoop k (s.drop (m + 1)) sep with
        | nil => simp [hrest] at i1
        | cons q rest =>
          rw [hrest] at i2
          simp only [Join]
          rw [i2]
          exact h1.symm
      · intro piece hp
        simp only [List.mem_cons] at hp
        rcases hp with hp | hp
        · subst hp
          exact h2
        · exact i3 piece hp

theorem Split_spec (s : GoString) (sep : Nat) :
    (Split s sep).length = Count s sep + 1 ∧ Join (Split s sep) sep = s ∧
      ∀ piece ∈ Split s sep, sep ∉ piece :=
  genSplitLoop_spec (Count s sep) s sep rfl

theorem spaceEncodings_pos (e : GoString) (he : e ∈ spaceEncodings) : 0 < e.length := by
  have hall : ∀ x ∈ spaceEncodings, 0 < x.length := by decide
  exact hall e he

theorem leadingSpace_trimLeftLoop (n : Nat) (s : GoString) (h : s.length ≤ n) :
    leadingSpace (trimLeftLoop n s) = none := by
  induction n generalizing s with
  | zero =>
    have hs : s = [] := List.length_eq_zero.1 (by omega)
    subst hs
    decide
  | succ n ih =>
    unfold trimLeftLoop
    cases hl : leadingSpace s with
    | none => simpa using hl
    | some e =>
      have hpos := spaceEncodings_pos e (List.mem_of_find?_eq_some hl)
      apply ih
      rw [List.length_drop]
      omega

theorem trailingSpace_trimRightLoop (n : Nat) (s : GoString) (h : s.length ≤ n) :
    trailingSpace (trimRightLoop n s) = none := by
  induction n generalizing s with
  | zero =>
    have hs : s = [] := List.length_eq_zero.1 (by omega)
    subst hs
    decide
  | succ n ih =>
    unfold trimRightLoop
    cases hl : trailingSpace s with
    | none => simpa using hl
    | some e =>
      have hpos := spaceEncodings_pos e (List.mem_of_find?_eq_some hl)
      apply ih
      rw [List.length_take]
      omega

theorem trimRightLoop_isPrefix (n : Nat) (s : GoString) : trimRightLoop n s <+: s := by
  induction n generalizing s with
  | zero => exact List.prefix_refl s
  | succ n ih =>
    unfold trimRightLoop
    cases trailingSpace s with
    | none => exact List.prefix_refl s
    | some e => exact (ih _).trans ( List.take_prefix _ s)

theorem trimLeftLoop_isSuffix (n : Nat) (s : GoString) : trimLeftLoop n s <:+ s := by
  induction n generalizing s with
  | zero => exact List.suffix_refl s
  | succ n ih =>
    unfold trimLeftLoop
    cases leadingSpace s with
    | none => exact List.suffix_refl s
    | some e => exact (ih _).trans ( List.drop_suffix _ s)

theorem leadingSpace_of_isPrefix (t s : GoString) (hts : t <+: s)
    (h : leadingSpace s = none) : leadingSpace t = none := by
  unfold leadingSpace at *
  rw [List.find?_eq_none] at *
  intro e he hpre
  apply h e he
  rw [ List.isPrefixOf_iff_prefix] at *
  exact hpre.trans hts

theorem trimLeftLoop_of_none (n : Nat) (s : GoString) (h : leadingSpace s = none) :
    trimLeftLoop n s = s := by
  cases n with
  | zero => rfl
  | succ n => simp [trimLeftLoop, h]

theorem trimRightLoop_of_none (n : Nat) (s : GoString) (h : trailingSpace s = none) :
    trimRightLoop n s = s := by
  cases n with
  | zero => rfl
  | succ n => simp [trimRightLoop, h]

theorem whiteSpaceOnly_nil : whiteSpaceOnly [] := ⟨[], by simp, rfl⟩

theorem whiteSpaceOnly_cons (e s : GoString) (he : e ∈ spaceEncodings)
    (hs : whiteSpaceOnly s) : whiteSpaceOnly (e ++ s) := by
  obtain ⟨runes, hr, rfl⟩ := hs
  refine ⟨e :: runes, ?_, rfl⟩
  intro x hx
  rcases List.mem_cons.1 hx with h | h
  · exact h ▸ he
  · exact hr x h

theorem whiteSpaceOnly_snoc (s e : GoString) (hs : whiteSpaceOnly s)
    (he : e ∈ spaceEncodings) : whiteSpaceOnly (s ++ e) := by
  obtain ⟨runes, hr, rfl⟩ := hs
  refine ⟨runes ++ [e], ?_, by simp⟩
  intro x hx
  rcases List.mem_append.1 hx with h | h
  · exact hr x h
  · exact (List.mem_singleton.1 h) ▸ he

theorem leadingSpace_eq_some (s e : GoString) (h : leadingSpace s = some e) :
    e ∈ spaceEncodings ∧ s = e ++ s.drop e.length := by
  unfold leadingSpace at h
  refine ⟨List.mem_of_find?_eq_some h, ?_⟩
  have hp := List.find?_some h
  rw [ List.isPrefixOf_iff_prefix] at hp
  exact (List.prefix_iff_eq_append.1 hp).symm

theorem trailingSpace_eq_some (s e : GoString) (h : trailingSpace s = some e) :
    e ∈ spaceEncodings ∧ s = s.take (s.length - e.length) ++ e := by
  unfold trailingSpace at h
  refine ⟨List.mem_of_find?_eq_some h, ?_⟩
  have hp := List.find?_some h
  rw [ List.isSuffixOf_iff_suffix] at hp
  exact (List.suffix_iff_eq_append.1 hp).symm

/-- What `TrimLeftFunc(s, unicode.IsSpace)` removes is white space. -/
theorem trimLeftLoop_removes_space (n : Nat) (s : GoString) :
    ∃ lead, whiteSpaceOnly lead ∧ s = lead ++ trimLeftLoop n s := by
  induction n generalizing s with
  | zero => exact ⟨[], whiteSpaceOnly_nil, rfl⟩
  | succ n ih =>
    unfold trimLeftLoop
    cases hl : leadingSpace s with
    | none => exact ⟨[], whiteSpaceOnly_nil, rfl⟩
    | some e =>
      obtain ⟨he, hs⟩ := leadingSpace_eq_some s e hl
      obtain ⟨lead, hlead, hrest⟩ := ih (s.drop e.length)
      refine ⟨e ++ lead, whiteSpaceOnly_cons e lead he hlead, ?_⟩
      dsimp only
      rw [List.append_assoc, ← hrest]
      exact hs

/-- What `TrimRightFunc(s, unicode.IsSpace)` removes is white space. -/
theorem trimRightLoop_removes_space (n : Nat) (s : GoString) :
    ∃ trail, whiteSpaceOnly trail ∧ s = trimRightLoop n s ++ trail := by
  induction n generalizing s with
  | zero => exact ⟨[], whiteSpaceOnly_nil, by simp [trimRightLoop]⟩
  | succ n ih =>
    unfold trimRightLoop
    cases hl : trailingSpace s with
    | none => exact ⟨[], whiteSpaceOnly_nil, by simp⟩
    | some e =>
      obtain ⟨he, hs⟩ := trailingSpace_eq_some s e hl
      obtain ⟨trail, htrail, hrest⟩ := ih (s.take (s.length - e.length))
      refine ⟨trail ++ e, whiteSpaceOnly_snoc trail e htrail he, ?_⟩
      dsimp only
      rw [← List.append_assoc, ← hrest]
      exact hs

/-- What `strings.TrimSpace` removes: white space before and white space
after what it returns, nothing else. -/
theorem TrimSpace_removes_space (s : GoString) :
    ∃ lead trail, whiteSpaceOnly lead ∧ whiteSpaceOnly trail ∧
      s = lead ++ TrimSpace s ++ trail := by
  obtain ⟨lead, hlead, h1⟩ := trimLeftLoop_removes_space s.length s
  obtain ⟨trail, htrail, h2⟩ := trimRightLoop_removes_space (TrimLeftSpace s).length
    (TrimLeftSpace s)
  refine ⟨lead, trail, hlead, htrail, ?_⟩
  have h3 : s = lead ++ TrimLeftSpace s := h1
  have h4 : TrimLeftSpace s = TrimSpace s ++ trail := h2
  rw [List.append_assoc, ← h4]
  exact h3

theorem spaceEncodings_prefix_free :
    ∀ e ∈ spaceEncodings, ∀ e2 ∈ spaceEncodings, e2.isPrefixOf e = true → e2 = e := by
  decide

theorem spaceEncodings_suffix_free :
    ∀ e ∈ spaceEncodings, ∀ e2 ∈ spaceEncodings, e2.isSuffixOf e = true → e2 = e := by
  decide

theorem spaceEncodings_no_overlap :
    ∀ e ∈ spaceEncodings, ∀ e2 ∈ spaceEncodings, ∀ x ∈ e.tail, e2.head? ≠ some x := by
  decide

theorem leadingSpace_append (e rest : GoString) (he : e ∈ spaceEncodings) :
    leadingSpace (e ++ rest) = some e := by
  unfold leadingSpace
  cases hf : spaceEncodings.find? (fun x => x.isPrefixOf (e ++ rest)) with
  | none =>
    rw [List.find?_eq_none] at hf
    exact absurd (by simp) (hf e he)
  | some e2 =>
    have he2 := List.mem_of_find?_eq_some hf
    have hp2 := List.find?_some hf
    rw [ List.isPrefixOf_iff_prefix] at hp2
    have hp : e <+: e ++ rest := List.prefix_append e rest
    congr 1
    by_cases hlen : e2.length ≤ e.length
    · have := List.prefix_of_prefix_length_le hp2 hp hlen
      exact spaceEncodings_prefix_free e he e2 he2 ( List.isPrefixOf_iff_prefix.2 this)
    · have := List.prefix_of_prefix_length_le hp hp2 (by omega)
      exact (spaceEncodings_prefix_free e2 he2 e he ( List.isPrefixOf_iff_prefix.2 this)).symm

theorem trailingSpace_append (rest e : GoString) (he : e ∈ spaceEncodings) :
    trailingSpace (rest ++ e) = some e := by
  unfold trailingSpace
  cases hf : spaceEncodings.find? (fun x => x.isSuffixOf (rest ++ e)) with
  | none =>
    rw [List.find?_eq_none] at hf
    exact absurd (by simp) (hf e he)
  | some e2 =>
    have he2 := List.mem_of_find?_eq_some hf
    have hp2 := List.find?_some hf
    rw [ List.isSuffixOf_iff_suffix] at hp2
    have hp : e <:+ rest ++ e := List.suffix_append rest e
    congr 1
    by_cases hlen : e2.length ≤ e.length
    · have := List.suffix_of_suffix_length_le hp2 hp hlen
      exact spaceEncodings_suffix_free e he e2 he2 ( List.isSuffixOf_iff_suffix.2 this)
    · have := List.suffix_of_suffix_length_le hp hp2 (by omega)
      exact (spaceEncodings_suffix_free e2 he2 e he ( List.isSuffixOf_iff_suffix.2 this)).symm

theorem length_le_length_flatten (runes : List GoString)
    (hr : ∀ e ∈ runes, e ∈ spaceEncodings) : runes.length ≤ runes.flatten.length := by
  induction runes with
  | nil => simp
  | cons e rs ih =>
    have hpos := spaceEncodings_pos e (hr e (List.mem_cons_self e rs))
    have := ih (fun x hx => hr x (List.mem_cons_of_mem e hx))
    simp only [List.length_cons, List.flatten_cons, List.length_append]
    omega

theorem trimLeftLoop_flatten_append (runes : List GoString) (t : GoString) (n : Nat)
    (hr : ∀ e ∈ runes, e ∈ spaceEncodings) (ht : leadingSpace t = none)
    (hn : runes.length ≤ n) : trimLeftLoop n (runes.flatten ++ t) = t := by
  induction runes generalizing n with
  | nil => simpa using trimLeftLoop_of_none n t ht
  | cons e rs ih =>
    cases n with
    | zero => simp at hn
    | succ m =>
      have he := hr e (List.mem_cons_self e rs)
      unfold trimLeftLoop
      rw [List.flatten_cons, List.append_assoc, leadingSpace_append e _ he]
      dsimp only
      rw [List.drop_left]
      exact ih m (fun x hx => hr x (List.mem_cons_of_mem e hx)) (by simpa using hn)

theorem trimRightLoop_append_flatten (runes : List GoString) (t : GoString) (n : Nat)
    (hr : ∀ e ∈ runes, e ∈ spaceEncodings) (ht : trailingSpace t = none)
    (hn : runes.length ≤ n) : trimRightLoop n (t ++ runes.flatten) = t := by
  induction runes using List.reverseRecOn generalizing n with
  | nil => simpa using trimRightLoop_of_none n t ht
  | append_singleton rs e ih =>
    cases n with
    | zero => simp at hn
    | succ m =>
      have he := hr e (by simp)
      have hflat : t ++ (rs ++ [e]).flatten = (t ++ rs.flatten) ++ e := by simp
      unfold trimRightLoop
      rw [hflat, trailingSpace_append _ e he]
      dsimp only
      have htake : ((t ++ rs.flatten) ++ e).take (((t ++ rs.flatten) ++ e).length - e.length)
          = t ++ rs.flatten := by
        rw [List.length_append, Nat.add_sub_cancel, List.take_left]
      rw [htake]
      exact ih m (fun x hx => hr x (by simp [hx])) (by simpa using hn)

theorem leadingSpace_append_space (r b : GoString) (hr : leadingSpace r = none)
    (hne : r ≠ []) (hb : whiteSpaceOnly b) : leadingSpace (r ++ b) = none := by
  unfold leadingSpace at *
  rw [List.find?_eq_none] at *
  intro e he hpre
  rw [ List.isPrefixOf_iff_prefix] at hpre
  by_cases hlen : e.length ≤ r.length
  · have := List.prefix_of_prefix_length_le hpre ( List.prefix_append r b) hlen
    exact hr e he ( List.isPrefixOf_iff_prefix.2 this)
  · obtain ⟨c, hc⟩ := List.prefix_of_prefix_length_le ( List.prefix_append r b) hpre (by omega)
    obtain ⟨rest, hrest⟩ := hpre
    have hcne : c ≠ [] := by
      intro h
      rw [h, List.append_nil] at hc
      rw [hc] at hlen
      omega
    have hbc : b = c ++ rest := by
      have h1 : r ++ (c ++ rest) = r ++ b := by rw [← List.append_assoc, hc, hrest]
      exact (List.append_cancel_left h1).symm
    obtain ⟨runes, hrunes, hflat⟩ := hb
    cases r with
    | nil => exact hne rfl
    | cons x r2 =>
    cases c with
    | nil => exact hcne rfl
    | cons y c2 =>
    have hy : y ∈ e.tail := by
      rw [← hc]
      simp
    cases runes with
    | nil =>
      rw [hbc] at hflat
      simp at hflat
    | cons e2 rs =>
      have he2 := hrunes e2 (List.mem_cons_self e2 rs)
      have hpos := spaceEncodings_pos e2 he2
      cases e2 with
      | nil => simp at hpos
      | cons z e3 =>
        have hz : z = y := by
          rw [hbc] at hflat
          simp only [List.flatten_cons, List.cons_append, List.cons.injEq] at hflat
          exact hflat.1
        exact spaceEncodings_no_overlap e he (z :: e3) he2 y hy (by simp [hz])

/-- The result of `strings.TrimSpace` is determined by what it removes: the
only way to write a string as white space, then a part that neither starts
nor ends with a white space rune, then white space, has `TrimSpace` of the
string as its middle part. -/
theorem TrimSpace_unique (lead role trail : GoString) (hlead : whiteSpaceOnly lead)
    (htrail : whiteSpaceOnly trail) (h1 : leadingSpace role = none)
    (h2 : trailingSpace role = none) : TrimSpace (lead ++ role ++ trail) = role := by
  obtain ⟨ra, hra, rfl⟩ := hlead
  obtain ⟨rb, hrb, rfl⟩ := htrail
  have hab : ∀ e ∈ ra ++ rb, e ∈ spaceEncodings :=
    fun e he => (List.mem_append.1 he).elim (hra e) (hrb e)
  have hla := length_le_length_flatten ra hra
  have hlb := length_le_length_flatten rb hrb
  by_cases hne : role = []
  · subst hne
    have h := trimLeftLoop_flatten_append (ra ++ rb) [] ((ra ++ rb).flatten ++ []).length
      hab (by decide) (by
        have := length_le_length_flatten (ra ++ rb) hab
        simpa using this)
    have hshape : ra.flatten ++ [] ++ rb.flatten = (ra ++ rb).flatten ++ [] := by simp
    unfold TrimSpace TrimLeftSpace
    rw [hshape, h]
    rfl
  · have hleft : TrimLeftSpace (ra.flatten ++ (role ++ rb.flatten)) = role ++ rb.flatten := by
      unfold TrimLeftSpace
      apply trimLeftLoop_flatten_append ra (role ++ rb.flatten) _ hra
        (leadingSpace_append_space role rb.flatten h1 hne ⟨rb, hrb, rfl⟩)
      simp only [List.length_append]
      omega
    unfold TrimSpace
    rw [List.append_assoc, hleft]
    unfold TrimRightSpace
    apply trimRightLoop_append_flatten rb role _ hrb h2
    simp only [List.length_append]
    omega

theorem eq_map_of_forall₂ (f : GoString → GoString) (pieces roles : List GoString)
    (h : List.Forall₂ (fun piece role => role = f piece) pieces roles) :
    roles = pieces.map f := by
  induction h with
  | nil => rfl
  | cons hhead _ ih => rw [hhead, List.map_cons, ih]

/-- The function `strings.TrimSpace` meets its description, and only it does:
`role` is `piece` with its white space trimmed exactly when it is
`TrimSpace piece`. -/
theorem isTrimOf_iff (role piece : GoString) : isTrimOf role piece ↔ role = TrimSpace piece := by
  constructor
  · rintro ⟨lead, trail, hlead, htrail, rfl, h1, h2⟩
    exact (TrimSpace_unique lead role trail hlead htrail h1 h2).symm
  · rintro rfl
    obtain ⟨lead, trail, hlead, htrail, hs⟩ := TrimSpace_removes_space piece
    have hL : leadingSpace (TrimLeftSpace piece) = none :=
      leadingSpace_trimLeftLoop _ piece (le_refl _)
    have hP : TrimSpace piece <+: TrimLeftSpace piece := trimRightLoop_isPrefix _ _
    exact ⟨lead, trail, hlead, htrail, hs, leadingSpace_of_isPrefix _ _ hP hL,
      trailingSpace_trimRightLoop _ (TrimLeftSpace piece) (le_refl _)⟩

/-- What `strings.TrimSpace` returns: a part of its argument that neither
starts nor ends with a white space rune, and that `TrimSpace` leaves as it
is. -/
theorem TrimSpace_spec (s : GoString) :
    leadingSpace (TrimSpace s) = none ∧ trailingSpace (TrimSpace s) = none ∧
      TrimSpace s <:+: s ∧ TrimSpace (TrimSpace s) = TrimSpace s := by
  have hL : leadingSpace (TrimLeftSpace s) = none := leadingSpace_trimLeftLoop _ s (le_refl _)
  have hP : TrimSpace s <+: TrimLeftSpace s := trimRightLoop_isPrefix _ _
  have h1 : leadingSpace (TrimSpace s) = none := leadingSpace_of_isPrefix _ _ hP hL
  have h2 : trailingSpace (TrimSpace s) = none :=
    trailingSpace_trimRightLoop _ (TrimLeftSpace s) (le_refl _)
  refine ⟨h1, h2, ?_, ?_⟩
  · exact hP.isInfix.trans (trimLeftLoop_isSuffix _ s).isInfix
  · have e1 : TrimLeftSpace (TrimSpace s) = TrimSpace s := trimLeftLoop_of_none _ _ h1
    show TrimRightSpace (TrimLeftSpace (TrimSpace s)) = TrimSpace s
    rw [e1]
    exact trimRightLoop_of_none _ _ h2

theorem restore_ignore_renew (w : World) (r1 r2 : Option GoError)
    (flags : restoreFlags) (database branch : GoString) :
    (restore { w with Renew := r1 } flags database branch).err =
      (restore { w with Renew := r2 } flags database branch).err ∧
    (restore { w with Renew := r1 } flags database branch).exit =
      (restore { w with Renew := r2 } flags database branch).exit ∧
    (restore { w with Renew := r1 } flags database branch).trace =
      (restore { w with Renew := r2 } flags database branch).trace := by
  apply restore_cases { w with Renew := r1 } flags database branch
    (fun r => r.err = (restore { w with Renew := r2 } flags database branch).err ∧
      r.exit = (restore { w with Renew := r2 } flags database branch).exit ∧
      r.trace = (restore { w with Renew := r2 } flags database branch).trace)
  all_goals
    intros
    simp_all [restore, loaderConfig, tableRangeError, branchNotFoundError, branchCalls,
      credentialCalls, listenCalls, loaderCalls, runCalls, finishedCalls, defersAfterProxy,
      defersAfterListen, defersAfterProgress, deferCleanup]

theorem goRenew_not_mem_deferCleanup (w : World) : Effect.goRenew ∉ deferCleanup w := by
  unfold deferCleanup
  cases w.Cleanup <;> simp

theorem restore_background (w : World) (flags : restoreFlags) (database branch : GoString) :
    (restore w flags database branch).background =
      (if Effect.goRenew ∈ (restore w flags database branch).trace then goroutines w else []) := by
  apply restore_cases w flags database branch
    (fun r => r.background = (if Effect.goRenew ∈ r.trace then goroutines w else []))
  all_goals
    intros
    simp [deferCancel, goRenew_not_mem_deferCleanup, branchCalls, credentialCalls,
      listenCalls, loaderCalls, runCalls, defersAfterProxy]

theorem restore_err_in_flight (w : World) (flags : restoreFlags) (database branch : GoString)
    (hstart : Effect.goRenew ∈ (restore w flags database branch).trace) :
    ∃ addr, w.Listen (localAddrOf flags) = .ok addr ∧
      (restore w flags database branch).err =
        (match w.NewLoader (loaderConfig w flags database addr) with
         | some err => some err
         | none => (w.LoaderRun (loaderConfig w flags database addr)).map
            restoreFailedError) := by
  revert hstart
  apply restore_cases w flags database branch
    (fun r => Effect.goRenew ∈ r.trace →
      ∃ addr, w.Listen (localAddrOf flags) = .ok addr ∧
        r.err =
          (match w.NewLoader (loaderConfig w flags database addr) with
           | some err => some err
           | none => (w.LoaderRun (loaderConfig w flags database addr)).map
              restoreFailedError))
  case hNewLoader =>
    intro b pw addr err _ _ _ _ _ _ hL hNL _
    exact ⟨addr, hL, by simp [hNL]⟩
  case hLoaderRun =>
    intro b pw addr err _ _ _ _ _ _ hL hNL hLR _
    exact ⟨addr, hL, by simp [hNL, hLR]⟩
  case hFinished =>
    intro b pw addr _ _ _ _ _ _ hL hNL hLR _
    exact ⟨addr, hL, by simp [hNL, hLR]⟩
  all_goals
    intros
    simp_all [deferCancel, goRenew_not_mem_deferCleanup, branchCalls, credentialCalls,
      listenCalls, defersAfterProxy]

/-! ## Claims -/

/-- C1: with a non-empty `--dir`, `restore` returns through the table-range
check exactly when both tables are non-empty and the ending table is
byte-wise lexicographically smaller than the starting table; it then returns
the table-range error having made no call but the deferred `cancel` (no
client, no branch read, no credential); equal tables, or a single table set,
never take that return. -/
theorem restore_tableRange_iff (w : World) (flags : restoreFlags) (database branch : GoString)
    (hdir : flags.dir ≠ []) :
    ((restore w flags database branch).exit = Exit.tableRange ↔
        flags.startingTable ≠ [] ∧ flags.endingTable ≠ [] ∧
          List.Lex (· < ·) flags.endingTable flags.startingTable) ∧
    ((restore w flags database branch).exit = Exit.tableRange →
        (restore w flags database branch).err = some (tableRangeError w flags) ∧
        (restore w flags database branch).trace = [Effect.cancel] ∧
        (restore w flags database branch).background = []) ∧
    (flags.startingTable = flags.endingTable →
        (restore w flags database branch).exit ≠ Exit.tableRange) ∧
    (flags.startingTable = [] ∨ flags.endingTable = [] →
        (restore w flags database branch).exit ≠ Exit.tableRange) := by
  have key : (restore w flags database branch).exit = Exit.tableRange ↔
      tableRangeViolated flags = true := by
    unfold restore
    simp only [hdir, if_false]
    by_cases hv : tableRangeViolated flags = true
    · simp [hv]
    · have hv2 : tableRangeViolated flags = false := by simpa using hv
      simp only [hv2, Bool.false_eq_true, if_false]
      repeat' split
      all_goals simp
  refine ⟨?_, ?_, ?_, ?_⟩
  · rw [key, tableRangeViolated_iff, strLt_iff_lex]
  · intro h
    have hv := key.1 h
    unfold restore
    simp [hdir, hv, deferCancel]
  · intro hEq h
    have hv := (tableRangeViolated_iff flags).1 (key.1 h)
    rw [hEq, strLt_irrefl] at hv
    simp at hv
  · intro hE h
    have hv := (tableRangeViolated_iff flags).1 (key.1 h)
    rcases hE with hE | hE
    · exact hv.1 hE
    · exact hv.2.1 hE

/-- C3: when `--dir` is set, the table range is in order, the client is
available and the branch read succeeds with `Ready = false`, `restore`
returns the "not ready yet, please try again" error after the branch read
alone (no credential issue, no listener, no loader, no goroutine); that
error differs from the one `restore` returns when the branch read fails with
the not-found code. -/
theorem restore_notReady (w w2 : World) (flags : restoreFlags) (database branch : GoString)
    (dbBranch : DatabaseBranch) (err2 : GoError)
    (hdir : flags.dir ≠ []) (hrange : tableRangeViolated flags = false)
    (hClient : w.Client = none) (hGet : w.BranchGet = .ok dbBranch)
    (hReady : dbBranch.Ready = false)
    (hClient2 : w2.Client = none) (hGet2 : w2.BranchGet = .error err2)
    (hCode2 : w2.ErrCodeIsNotFound err2 = true) :
    (restore w flags database branch).exit = Exit.notReady ∧
    (restore w flags database branch).err = some notReadyError ∧
    notReadyError.Error =
      lit "database branch is not ready yet, please try again in a few minutes" ∧
    (restore w flags database branch).trace =
      [Effect.client, Effect.branchGet ⟨w.Organization, database, branch⟩, Effect.cancel] ∧
    (restore w flags database branch).background = [] ∧
    (restore w flags database branch).trace.any isPasswordNew = false ∧
    (restore w flags database branch).trace.any isListen = false ∧
    (restore w flags database branch).trace.any isLoaderCall = false ∧
    (restore w2 flags database branch).exit = Exit.branchNotFound ∧
    (restore w2 flags database branch).err = some (branchNotFoundError w2 database branch) ∧
    (restore w flags database branch).err ≠ (restore w2 flags database branch).err := by
  have h1 : restore w flags database branch =
      ⟨.notReady, some notReadyError, branchCalls w database branch ++ deferCancel, []⟩ := by
    unfold restore
    simp [hdir, hrange, hClient, hGet, hReady]
  have h2 : restore w2 flags database branch =
      ⟨.branchNotFound, some (branchNotFoundError w2 database branch),
        branchCalls w2 database branch ++ deferCancel, []⟩ := by
    unfold restore
    simp [hdir, hrange, hClient2, hGet2, hCode2]
  rw [h1, h2]
  refine ⟨rfl, rfl, rfl, rfl, rfl, ?_, ?_, ?_, rfl, rfl, ?_⟩
  · simp [branchCalls, deferCancel, isPasswordNew]
  · simp [branchCalls, deferCancel, isListen]
  · simp [branchCalls, deferCancel, isLoaderCall]
  · simp [notReadyError, branchNotFoundError, errorsNew, fmtErrorf, lit]

/-- C4: when a validation step fails (`--dir` missing, bad table range,
client unavailable, branch read failed, branch not ready) or the credential
is not issued, `restore` returns an error (given that `cmdutil.HandleError`
maps an error to an error) without binding the listener, without starting
the `Serve` and `Renew` goroutines and without constructing or running the
loader; with `--dir` missing or a bad table range it makes no call at all
but the deferred `cancel`. -/
theorem restore_fails_before_relay (w : World) (flags : restoreFlags)
    (database branch : GoString)
    (hHandle : ∀ err, (w.HandleError err).isSome = true)
    (hfail : failsBeforeRelay w flags) :
    (restore w flags database branch).err.isSome = true ∧
    (restore w flags database branch).trace.any isListen = false ∧
    (restore w flags database branch).trace.any isTaskStart = false ∧
    (restore w flags database branch).trace.any isLoaderCall = false ∧
    (restore w flags database branch).background = [] ∧
    (flags.dir = [] ∨ tableRangeViolated flags = true →
      (restore w flags database branch).trace = [Effect.cancel] ∧
      (restore w flags database branch).trace.any isRemoteCall = false) := by
  unfold failsBeforeRelay at hfail
  apply restore_cases w flags database branch
    (fun r => r.err.isSome = true ∧ r.trace.any isListen = false ∧
      r.trace.any isTaskStart = false ∧ r.trace.any isLoaderCall = false ∧
      r.background = [] ∧
      (flags.dir = [] ∨ tableRangeViolated flags = true →
        r.trace = [Effect.cancel] ∧ r.trace.any isRemoteCall = false))
  · intro _
    simp [deferCancel, isListen, isTaskStart, isLoaderCall, isRemoteCall]
  · intro _ _
    simp [deferCancel, isListen, isTaskStart, isLoaderCall, isRemoteCall]
  · intro err hdir hv _
    simp [deferCancel, isListen, isTaskStart, isLoaderCall, hdir, hv]
  · intro err hdir hv _ _ _
    simp [deferCancel, branchCalls, isListen, isTaskStart, isLoaderCall, hdir, hv]
  · intro err hdir hv _ _ _
    simp [deferCancel, branchCalls, isListen, isTaskStart, isLoaderCall, hdir, hv, hHandle]
  · intro b hdir hv _ _ _
    simp [deferCancel, branchCalls, isListen, isTaskStart, isLoaderCall, hdir, hv]
  · intro b err hdir hv _ _ _ _
    simp [deferCancel, credentialCalls, branchCalls, isListen, isTaskStart, isLoaderCall, hdir,
      hv, hHandle]
  · intro b pw err hdir hv hC hB hR hP _
    exfalso
    simp_all
  · intro b pw addr err hdir hv hC hB hR hP _ _
    exfalso
    simp_all
  · intro b pw addr err hdir hv hC hB hR hP _ _ _
    exfalso
    simp_all
  · intro b pw addr hdir hv hC hB hR hP _ _ _
    exfalso
    simp_all

/-- The table-range check on the example flags: reversed tables stop the
run at once, no tables set never does. -/
theorem restore_tableRange_iff_witness :
    reversedRangeFlags.dir ≠ [] ∧
    (restore exampleWorld reversedRangeFlags (lit "shop") (lit "main")).trace = [Effect.cancel] ∧
    (restore exampleWorld exampleFlags (lit "shop") (lit "main")).exit ≠ Exit.tableRange :=
  ⟨by decide,
   ((restore_tableRange_iff exampleWorld reversedRangeFlags (lit "shop") (lit "main")
      (by decide)).2.1 (by decide)).2.1,
   (restore_tableRange_iff exampleWorld exampleFlags (lit "shop") (lit "main")
      (by decide)).2.2.1 (by decide)⟩

/-- The not-ready and the not-found example worlds return different
errors. -/
theorem restore_notReady_witness :
    (restore notReadyWorld exampleFlags (lit "shop") (lit "main")).err = some notReadyError ∧
    (restore notReadyWorld exampleFlags (lit "shop") (lit "main")).err ≠
      (restore notFoundWorld exampleFlags (lit "shop") (lit "main")).err :=
  have h := restore_notReady notReadyWorld notFoundWorld exampleFlags (lit "shop") (lit "main")
    ⟨false⟩ (.plain (lit "not_found")) (by decide) (by decide) rfl rfl rfl rfl rfl (by decide)
  ⟨h.2.1, h.2.2.2.2.2.2.2.2.2.2⟩

/-- The example world without credential returns an error and binds no
listener. -/
theorem restore_fails_before_relay_witness :
    failsBeforeRelay noCredentialWorld exampleFlags ∧
    (restore noCredentialWorld exampleFlags (lit "shop") (lit "main")).err.isSome = true ∧
    (restore noCredentialWorld exampleFlags (lit "shop") (lit "main")).trace.any isListen
      = false :=
  have hfail : failsBeforeRelay noCredentialWorld exampleFlags :=
    Or.inr (Or.inr (Or.inr (Or.inr (Or.inr ⟨.plain (lit "unauthorized"), rfl⟩))))
  have h := restore_fails_before_relay noCredentialWorld exampleFlags (lit "shop") (lit "main")
    (fun _ => rfl) hfail
  ⟨hfail, h.1, h.2.1⟩

/-- C5 (as stated, refuted): a run reaches the loader, `loader.Run` fails
with an error built by `errors.New`, and the error `restore` returns has no
`Unwrap` result and does not satisfy `errors.Is` against the cause; a second
run whose loader error has the same text but wraps another error returns the
very same error, so the cause cannot be recovered from what `restore`
returns. -/
theorem restore_loader_cause_not_recoverable :
    Effect.loaderRun ∈ (restore loaderFailWorld exampleFlags (lit "shop") (lit "main")).trace ∧
    loaderFailWorld.LoaderRun
      (loaderConfig loaderFailWorld exampleFlags (lit "shop") (lit "127.0.0.1:54321"))
      = some loaderCause ∧
    (restore loaderFailWorld exampleFlags (lit "shop") (lit "main")).err =
      some (GoError.plain (lit "failed to restore database: load: disk full")) ∧
    (GoError.plain (lit "failed to restore database: load: disk full")).Unwrap = none ∧
    errorsIs (GoError.plain (lit "failed to restore database: load: disk full")) loaderCause
      = false ∧
    loaderCauseWrapping ≠ loaderCause ∧
    (restore loaderFailWrappingWorld exampleFlags (lit "shop") (lit "main")).err =
      (restore loaderFailWorld exampleFlags (lit "shop") (lit "main")).err := by
  decide

/-- C5 (amended): a run of `restore` that reaches `loader.Run` returns an
error exactly when `loader.Run` returns one; the error returned is a new
error without `Unwrap` whose message is "failed to restore database: "
followed by the text of the loader error, so that text is what remains of
the cause (it is the message with the 28-byte prefix removed), while
`errors.Is` of the returned error against the loader error is false. -/
theorem restore_loader_error_text_preserved (w : World) (flags : restoreFlags)
    (database branch : GoString)
    (hreach : Effect.loaderRun ∈ (restore w flags database branch).trace) :
    ∃ addr, w.Listen (localAddrOf flags) = .ok addr ∧
      ((restore w flags database branch).err.isSome = true ↔
        (w.LoaderRun (loaderConfig w flags database addr)).isSome = true) ∧
      ∀ cause, w.LoaderRun (loaderConfig w flags database addr) = some cause →
        ∃ err, (restore w flags database branch).err = some err ∧
          err.Error = lit "failed to restore database: " ++ cause.Error ∧
          err.Error.drop 28 = cause.Error ∧
          err.Unwrap = none ∧
          errorsIs err cause = false := by
  revert hreach
  apply restore_cases w flags database branch
    (fun r => Effect.loaderRun ∈ r.trace →
      ∃ addr, w.Listen (localAddrOf flags) = .ok addr ∧
        (r.err.isSome = true ↔
          (w.LoaderRun (loaderConfig w flags database addr)).isSome = true) ∧
        ∀ cause, w.LoaderRun (loaderConfig w flags database addr) = some cause →
          ∃ err, r.err = some err ∧
            err.Error = lit "failed to restore database: " ++ cause.Error ∧
            err.Error.drop 28 = cause.Error ∧
            err.Unwrap = none ∧
            errorsIs err cause = false)
  case hLoaderRun =>
    intro b pw addr err _ _ _ _ _ _ hL _ hLR _
    refine ⟨addr, hL, by simp [hLR], ?_⟩
    intro cause hc
    rw [hLR] at hc
    cases hc
    refine ⟨restoreFailedError err, rfl, rfl, ?_, rfl, errorsIs_restoreFailedError err⟩
    simp [restoreFailedError, fmtErrorf, GoError.Error, lit]
  case hFinished =>
    intro b pw addr _ _ _ _ _ _ hL _ hLR _
    exact ⟨addr, hL, by simp [hLR], by simp [hLR]⟩
  all_goals
    intros
    cases hCl : w.Cleanup <;>
      simp_all [deferCancel, deferCleanup, branchCalls, credentialCalls, listenCalls,
        loaderCalls, defersAfterProxy, defersAfterListen]

/-- The example world whose loader fails returns an error exactly because
the loader does. -/
theorem restore_loader_error_text_preserved_witness :
    Effect.loaderRun ∈ (restore loaderFailWorld exampleFlags (lit "shop") (lit "main")).trace ∧
    ∃ addr, loaderFailWorld.Listen (localAddrOf exampleFlags) = .ok addr ∧
      ((restore loaderFailWorld exampleFlags (lit "shop") (lit "main")).err.isSome = true ↔
        (loaderFailWorld.LoaderRun
          (loaderConfig loaderFailWorld exampleFlags (lit "shop") addr)).isSome = true) :=
  have h := restore_loader_error_text_preserved loaderFailWorld exampleFlags (lit "shop")
    (lit "main") (by decide)
  ⟨by decide, h.elim (fun addr ha => ⟨addr, ha.1, ha.2.1⟩)⟩

/-- C6: two runs of `restore` that differ only in the outcome of
`pw.Cleanup` return the same result (the same nil, or the same error, through
the same `return` statement); when the revoke of an issued credential fails,
its error is printed ("failed to delete credentials: ") and nothing else
changes. -/
theorem restore_cleanup_failure_only_printed (w : World) (c1 c2 : Option GoError)
    (flags : restoreFlags) (database branch : GoString) :
    (restore { w with Cleanup := c1 } flags database branch).err =
      (restore { w with Cleanup := c2 } flags database branch).err ∧
    (restore { w with Cleanup := c1 } flags database branch).exit =
      (restore { w with Cleanup := c2 } flags database branch).exit ∧
    (restore { w with Cleanup := c1 } flags database branch).background =
      (restore { w with Cleanup := c2 } flags database branch).background ∧
    (∀ cleanupErr, c1 = some cleanupErr →
      credentialIssued { w with Cleanup := c1 }
        (restore { w with Cleanup := c1 } flags database branch) = true →
      Effect.println [lit "failed to delete credentials: ", cleanupErr.Error] ∈
        (restore { w with Cleanup := c1 } flags database branch).trace) := by
  have h := restore_err_exit_ignore_cleanup w c1 c2 flags database branch
  refine ⟨h.1, h.2.1, h.2.2, ?_⟩
  intro cleanupErr hc
  subst hc
  apply restore_cases { w with Cleanup := some cleanupErr } flags database branch
    (fun r => credentialIssued { w with Cleanup := some cleanupErr } r = true →
      Effect.println [lit "failed to delete credentials: ", cleanupErr.Error] ∈ r.trace)
  all_goals
    intros
    simp_all [credentialIssued, isPasswordNew, deferCancel, deferCleanup, branchCalls,
      credentialCalls, defersAfterProxy, defersAfterListen, defersAfterProgress]

/-- C7 (as stated, refuted): a run in which `pw.Renew` returns an error while
every other collaborator succeeds starts the renewal goroutine and returns
nil through the final `return`. -/
theorem restore_renew_failure_not_escalated :
    renewFailWorld.Renew = some (GoError.plain (lit "renew failed twice")) ∧
    Effect.goRenew ∈ (restore renewFailWorld exampleFlags (lit "shop") (lit "main")).trace ∧
    (restore renewFailWorld exampleFlags (lit "shop") (lit "main")).err = none ∧
    (restore renewFailWorld exampleFlags (lit "shop") (lit "main")).exit = Exit.finished := by
  decide

/-- C7 (amended): in a run of `restore` that started the renewal goroutine
and in which `pw.Renew` returns an error, that error is printed by the
goroutine ("proxy error: ") and `restore` returns an error exactly when the
construction or the run of the loader fails; it returns nil otherwise. -/
theorem restore_renew_error_only_printed (w : World) (flags : restoreFlags)
    (database branch : GoString) (renewErr : GoError)
    (hstart : Effect.goRenew ∈ (restore w flags database branch).trace)
    (hRenew : w.Renew = some renewErr) :
    Effect.println [lit "proxy error: ", renewErr.Error] ∈
      (restore w flags database branch).background ∧
    ∃ addr, w.Listen (localAddrOf flags) = .ok addr ∧
      ((restore w flags database branch).err.isSome = true ↔
        (w.NewLoader (loaderConfig w flags database addr)).isSome = true ∨
        (w.LoaderRun (loaderConfig w flags database addr)).isSome = true) := by
  revert hstart
  apply restore_cases w flags database branch
    (fun r => Effect.goRenew ∈ r.trace →
      Effect.println [lit "proxy error: ", renewErr.Error] ∈ r.background ∧
      ∃ addr, w.Listen (localAddrOf flags) = .ok addr ∧
        (r.err.isSome = true ↔
          (w.NewLoader (loaderConfig w flags database addr)).isSome = true ∨
          (w.LoaderRun (loaderConfig w flags database addr)).isSome = true))
  all_goals
    intros
    cases hCl : w.Cleanup <;> cases hSD : flags.showDetails <;>
      simp_all [deferCancel, deferCleanup, goroutine, goroutines, endCall, branchCalls,
        credentialCalls, listenCalls, loaderCalls, runCalls, finishedCalls, defersAfterProxy,
        defersAfterListen, defersAfterProgress]

/-- The example world whose renewal fails prints the renewal error from the
goroutine. -/
theorem restore_renew_error_only_printed_witness :
    Effect.goRenew ∈ (restore renewFailWorld exampleFlags (lit "shop") (lit "main")).trace ∧
    renewFailWorld.Renew = some (GoError.plain (lit "renew failed twice")) ∧
    Effect.println [lit "proxy error: ", lit "renew failed twice"] ∈
      (restore renewFailWorld exampleFlags (lit "shop") (lit "main")).background :=
  ⟨by decide, rfl,
   (restore_renew_error_only_printed renewFailWorld exampleFlags (lit "shop") (lit "main")
      (GoError.plain (lit "renew failed twice")) (by decide) rfl).1⟩

/-- C10: in a run of `restore` that issued the credential, the one address
given to `net.Listen` is `--local-addr` when that flag is non-empty and
"127.0.0.1:0" otherwise; the one proxy built has as upstream address
`--remote-addr` when that flag is non-empty and the hostname of the issued
credential otherwise; and when the bind succeeds the one loader
configuration built carries as `Address` the address of the bound listener,
whatever address was requested. -/
theorem restore_addresses (w : World) (flags : restoreFlags) (database branch : GoString)
    (hissued : credentialIssued w (restore w flags database branch) = true) :
    ∃ pw, w.PasswordNew = .ok pw ∧
      (restore w flags database branch).trace.filter isListen =
        [Effect.listen (if flags.localAddr ≠ [] then flags.localAddr else lit "127.0.0.1:0")] ∧
      (restore w flags database branch).trace.filter isProxyNew =
        [Effect.proxyNew ⟨if flags.remoteAddr ≠ [] then flags.remoteAddr else pw.Hostname,
          pw.Username, pw.PlainText⟩] ∧
      (∀ addr,
        w.Listen (if flags.localAddr ≠ [] then flags.localAddr else lit "127.0.0.1:0")
          = .ok addr →
        ∃ cfg, (restore w flags database branch).trace.filter isNewLoader
            = [Effect.newLoader cfg] ∧
          cfg.Address = addr) := by
  rw [← localAddrOf_eq]
  simp only [← remoteAddrOf_eq]
  revert hissued
  apply restore_cases w flags database branch
    (fun r => credentialIssued w r = true →
      ∃ pw, w.PasswordNew = .ok pw ∧
        r.trace.filter isListen = [Effect.listen (localAddrOf flags)] ∧
        r.trace.filter isProxyNew =
          [Effect.proxyNew ⟨remoteAddrOf flags pw, pw.Username, pw.PlainText⟩] ∧
        (∀ addr, w.Listen (localAddrOf flags) = .ok addr →
          ∃ cfg, r.trace.filter isNewLoader = [Effect.newLoader cfg] ∧ cfg.Address = addr))
  all_goals
    intros
    cases hCl : w.Cleanup <;> cases hSD : flags.showDetails <;>
      simp_all [credentialIssued, isPasswordNew, isListen, isProxyNew, isNewLoader,
        loaderConfig, deferCancel, deferCleanup, endCall, branchCalls,
        credentialCalls, listenCalls, loaderCalls, runCalls, finishedCalls, defersAfterProxy,
        defersAfterListen, defersAfterProgress, List.filter_cons, List.filter_append]

/-- The example run requests "127.0.0.1:0" and hands the loader the bound
address "127.0.0.1:54321". -/
theorem restore_addresses_witness :
    credentialIssued exampleWorld
      (restore exampleWorld exampleFlags (lit "shop") (lit "main")) = true ∧
    ∃ pw, exampleWorld.PasswordNew = .ok pw ∧
      (restore exampleWorld exampleFlags (lit "shop") (lit "main")).trace.filter isListen =
        [Effect.listen (lit "127.0.0.1:0")] ∧
      (∃ cfg, (restore exampleWorld exampleFlags (lit "shop") (lit "main")).trace.filter
          isNewLoader = [Effect.newLoader cfg] ∧ cfg.Address = lit "127.0.0.1:54321") :=
  have h := restore_addresses exampleWorld exampleFlags (lit "shop") (lit "main") (by decide)
  ⟨by decide, h.elim (fun pw hp => ⟨pw, hp.1, hp.2.1, hp.2.2.2 (lit "127.0.0.1:54321") rfl⟩)⟩

/-- C8 (failing inputs): for a duration parser that rejects bare integers,
`Set "9223372037"` fails with "TTL cannot be negative" and leaves the flag
unchanged, and `Set "36028797018963973"` succeeds and stores five seconds:
the product of the integer and one second wraps around in `int64`. -/
theorem ttlFlag_Set_bare_integer_overflow (ParseDuration : GoString → Except GoError Int)
    (quote : GoString → GoString) (f : ttlFlag) (e1 e2 : GoError)
    (h1 : ParseDuration (lit "9223372037") = .error e1)
    (h2 : ParseDuration (lit "36028797018963973") = .error e2) :
    Atoi (lit "9223372037") = some 9223372037 ∧
    ttlFlag.Set ParseDuration quote f (lit "9223372037") =
      (some (errorsNew (lit "TTL cannot be negative")), f) ∧
    Atoi (lit "36028797018963973") = some 36028797018963973 ∧
    ttlFlag.Set ParseDuration quote f (lit "36028797018963973") =
      (none, { f with Value := 5 * Second }) := by
  have a1 : Atoi (lit "9223372037") = some 9223372037 := by decide
  have a2 : Atoi (lit "36028797018963973") = some 36028797018963973 := by decide
  have w1 : wrap64 (9223372037 * Second) = -9223372036709551616 := by decide
  have w2 : wrap64 (36028797018963973 * Second) = 5 * Second := by decide
  have n1 : lit "9223372037" ≠ [] := by decide
  have n2 : lit "36028797018963973" ≠ [] := by decide
  have r2 : Round (5 * Second) Second = 5 * Second := by decide
  refine ⟨a1, ?_, a2, ?_⟩
  · unfold ttlFlag.Set
    simp only [n1, if_false, h1, a1, w1]
    simp [ttlFlag.set]
  · unfold ttlFlag.Set
    simp only [n2, if_false, h2, a2, w2]
    unfold ttlFlag.set
    rw [r2]
    simp [Second]

/-- The two overflowing integers under a parser that rejects everything. -/
theorem ttlFlag_Set_bare_integer_overflow_witness :
    rejectingParser (lit "9223372037") = .error (.plain (lit "time: missing unit in duration")) ∧
    ttlFlag.Set rejectingParser (fun s => s) ⟨0⟩ (lit "9223372037") =
      (some (errorsNew (lit "TTL cannot be negative")), ⟨0⟩) ∧
    ttlFlag.Set rejectingParser (fun s => s) ⟨0⟩ (lit "36028797018963973") =
      (none, ⟨5 * Second⟩) :=
  have h := ttlFlag_Set_bare_integer_overflow rejectingParser (fun s => s) ⟨0⟩
    (.plain (lit "time: missing unit in duration")) (.plain (lit "time: missing unit in duration"))
    rfl rfl
  ⟨rfl, h.2.1, h.2.2.2⟩

/-- C9 (failing input): when the duration parser yields the largest duration
(9223372036854775807 nanoseconds) for a string, `Set` returns nil and stores
it, although it is not a whole number of seconds: `Round` saturates at the
largest duration, so the comparison of `set` finds no difference. -/
theorem ttlFlag_Set_stores_maxDuration (ParseDuration : GoString → Except GoError Int)
    (quote : GoString → GoString) (f : ttlFlag) (value : GoString)
    (hne : value ≠ []) (hparse : ParseDuration value = .ok maxDuration) :
    Round maxDuration Second = maxDuration ∧
    maxDuration % Second = 854775807 ∧
    ttlFlag.Set ParseDuration quote f value = (none, { f with Value := maxDuration }) ∧
    (setAll ParseDuration quote ⟨0⟩ [value]).Value % Second ≠ 0 := by
  have hR : Round maxDuration Second = maxDuration := by decide
  have hS : ttlFlag.Set ParseDuration quote f value = (none, { f with Value := maxDuration }) := by
    unfold ttlFlag.Set
    simp only [hne, if_false, hparse]
    unfold ttlFlag.set
    rw [hR]
    simp [maxDuration]
  refine ⟨hR, by decide, hS, ?_⟩
  unfold setAll ttlFlag.Set
  simp only [List.foldl, hne, if_false, hparse]
  unfold ttlFlag.set
  rw [hR]
  decide

/-- The largest duration, written in nanoseconds, is stored from the zero
flag. -/
theorem ttlFlag_Set_stores_maxDuration_witness :
    lit "9223372036854775807ns" ≠ [] ∧
    ttlFlag.Set maxAcceptingParser (fun s => s) ⟨0⟩ (lit "9223372036854775807ns") =
      (none, ⟨9223372036854775807⟩) :=
  ⟨by decide,
   (ttlFlag_Set_stores_maxDuration maxAcceptingParser (fun s => s) ⟨0⟩
      (lit "9223372036854775807ns") (by decide) (by simp [maxAcceptingParser])).2.2.1⟩

/-- C11: two runs of `restore` that differ only in what `pw.Renew` returns
give the same result through the same `return` statement after the same
calls; a renewal error only adds its `Println` ("proxy error: ") to the
output of the goroutine, and once the goroutines are started the result is
the error of the loader construction, else the wrapped text of the error of
the loader run, else nil. -/
theorem restore_renew_outcome_ignored (w : World) (r1 r2 : Option GoError)
    (flags : restoreFlags) (database branch : GoString) :
    (restore { w with Renew := r1 } flags database branch).err =
      (restore { w with Renew := r2 } flags database branch).err ∧
    (restore { w with Renew := r1 } flags database branch).exit =
      (restore { w with Renew := r2 } flags database branch).exit ∧
    (restore { w with Renew := r1 } flags database branch).trace =
      (restore { w with Renew := r2 } flags database branch).trace ∧
    (∀ renewErr,
      (restore { w with Renew := some renewErr } flags database branch).background =
        (restore { w with Renew := none } flags database branch).background ++
          (if Effect.goRenew ∈
              (restore { w with Renew := some renewErr } flags database branch).trace
            then [Effect.println [lit "proxy error: ", renewErr.Error]] else [])) ∧
    (Effect.goRenew ∈ (restore { w with Renew := r1 } flags database branch).trace →
      ∃ addr, w.Listen (localAddrOf flags) = .ok addr ∧
        (restore { w with Renew := r1 } flags database branch).err =
          (match w.NewLoader (loaderConfig w flags database addr) with
           | some err => some err
           | none => (w.LoaderRun (loaderConfig w flags database addr)).map
              restoreFailedError)) := by
  have h := restore_ignore_renew w r1 r2 flags database branch
  refine ⟨h.1, h.2.1, h.2.2, ?_, ?_⟩
  · intro renewErr
    have ht := (restore_ignore_renew w (some renewErr) none flags database branch).2.2
    rw [restore_background { w with Renew := some renewErr },
      restore_background { w with Renew := none }, ← ht]
    by_cases hm :
        Effect.goRenew ∈ (restore { w with Renew := some renewErr } flags database branch).trace
    · simp [hm, goroutines, goroutine]
    · simp [hm]
  · intro hstart
    exact restore_err_in_flight { w with Renew := r1 } flags database branch hstart

/-- C12: for the value of `--inherited-roles`, the request carries no
inherited roles when the value is empty; otherwise its `InheritedRoles` are
the pieces of `strings.Split(value, ",")`, each passed through
`strings.TrimSpace`, in the order of the pieces (joining the pieces with ","
gives the value back and no piece holds a comma); there is one role more than
there are commas; role by role, the role is its piece with the white space
trimmed (the piece is white space, the role, white space, and the role
neither starts nor ends with a white space rune), which determines the role;
each role is a part of its piece that `TrimSpace` leaves unchanged; a piece
of white space only gives the empty role, and only such a piece does. -/
theorem createRequest_inheritedRoles (organization database branch name : GoString)
    (ttl : Int) (flag : GoString) :
    (flag = [] →
      (createRequest organization database branch name ttl flag).InheritedRoles = []) ∧
    (flag ≠ [] →
      (createRequest organization database branch name ttl flag).InheritedRoles =
        (Split flag comma).map TrimSpace ∧
      Join (Split flag comma) comma = flag ∧
      (∀ piece ∈ Split flag comma, comma ∉ piece) ∧
      (createRequest organization database branch name ttl flag).InheritedRoles.length =
        Count flag comma + 1 ∧
      (∀ role ∈ (createRequest organization database branch name ttl flag).InheritedRoles,
        leadingSpace role = none ∧ trailingSpace role = none ∧ TrimSpace role = role) ∧
      (∀ piece ∈ Split flag comma,
        TrimSpace piece <:+: piece ∧ (TrimLeftSpace piece = [] → TrimSpace piece = [])) ∧
      List.Forall₂ (fun piece role => isTrimOf role piece) (Split flag comma)
        (createRequest organization database branch name ttl flag).InheritedRoles ∧
      (∀ roles, List.Forall₂ (fun piece role => isTrimOf role piece) (Split flag comma) roles →
        roles = (createRequest organization database branch name ttl flag).InheritedRoles) ∧
      (∀ piece ∈ Split flag comma, TrimSpace piece = [] ↔ whiteSpaceOnly piece)) := by
  obtain ⟨hlen, hjoin, hmem⟩ := Split_spec flag comma
  refine ⟨?_, ?_⟩
  · intro h
    simp [createRequest, inheritedRolesOf, h]
  · intro h
    have hroles : (createRequest organization database branch name ttl flag).InheritedRoles =
        (Split flag comma).map TrimSpace := by
      simp [createRequest, inheritedRolesOf, h]
    rw [hroles]
    refine ⟨rfl, hjoin, hmem, by simp [hlen], ?_, ?_, ?_, ?_, ?_⟩
    · intro role hrole
      obtain ⟨piece, _, rfl⟩ := List.mem_map.1 hrole
      obtain ⟨h1, h2, _, h4⟩ := TrimSpace_spec piece
      exact ⟨h1, h2, h4⟩
    · intro piece _
      refine ⟨(TrimSpace_spec piece).2.2.1, ?_⟩
      intro hblank
      unfold TrimSpace
      rw [hblank]
      rfl
    · rw [List.forall₂_map_right_iff, List.forall₂_same]
      intro piece _
      exact (isTrimOf_iff _ piece).2 rfl
    · intro roles hall
      have hfun : List.Forall₂ (fun piece role => role = TrimSpace piece)
          (Split flag comma) roles :=
        hall.imp (fun piece role h => (isTrimOf_iff role piece).1 h)
      exact eq_map_of_forall₂ TrimSpace _ _ hfun
    · intro piece _
      constructor
      · intro hempty
        obtain ⟨lead, trail, hlead, htrail, hs⟩ := TrimSpace_removes_space piece
        rw [hempty, List.append_nil] at hs
        obtain ⟨ra, hra, rfl⟩ := hlead
        obtain ⟨rb, hrb, rfl⟩ := htrail
        exact ⟨ra ++ rb, fun e he => (List.mem_append.1 he).elim (hra e) (hrb e),
          by rw [hs, List.flatten_append]⟩
      · intro hws
        have := TrimSpace_unique piece [] [] hws whiteSpaceOnly_nil (by decide) (by decide)
        simpa using this

/-- The trimmed form of "  a b", tab included, is "a b"; the empty string is
not the trimmed form of "a", and " a" is not its own trimmed form. -/
theorem isTrimOf_examples :
    isTrimOf (lit "a b") (lit "  a b\t") ∧ ¬ isTrimOf [] (lit "a") ∧
      ¬ isTrimOf (lit " a") (lit " a") := by
  refine ⟨(isTrimOf_iff _ _).2 (by decide), ?_, ?_⟩
  · intro h
    exact absurd ((isTrimOf_iff _ _).1 h) (by decide)
  · intro h
    exact absurd ((isTrimOf_iff _ _).1 h) (by decide)

/-- Three roles written with blanks around the commas, a value with an empty
and a blank piece, and a value with Unicode white space (U+00A0 before,
U+3000 after the name). -/
theorem inheritedRolesOf_examples :
    inheritedRolesOf (lit "pg_read_all_data, pg_write_all_data ,postgres") =
      [lit "pg_read_all_data", lit "pg_write_all_data", lit "postgres"] ∧
    inheritedRolesOf (lit "a,, \t,b") = [lit "a", [], [], lit "b"] ∧
    inheritedRolesOf [0xC2, 0xA0, 97, 0xE3, 0x80, 0x80] = [[97]] ∧
    inheritedRolesOf [] = [] := by
  decide

end Pscale
